import Mathlib

/-!
# The validator cache of `datastore/redis.go`

A shallow embedding of the Redis-backed cache of the relay
(`src/datastore/redis.go`) and the properties of its key namespace,
its known-validator map and its registration maps.

Conventions of the embedding

* Go strings are Lean strings (sequences of Unicode scalar values).
* `uint64` values are natural numbers; a conversion point reduces modulo `2^64`.
* A Go result `(T, error)` is a pair `T × Option Error`, with `none` for `nil`.
* The Redis server is an explicit state `Redis`, passed through every method.
  It holds the stored hashes, the failures the client is going to report
  (one entry per command, in order; a command reported as failed may have been
  carried out by the server all the same) and the list of commands issued so far.
* `encoding/json` and the Unicode case table, which live outside the
  repository, are parameters, gathered in `Lib`.
-/

namespace Datastore

/-! ## Values of the external libraries -/

/-- The Go `error` values that the cache can see. -/
inductive Error where
  /-- The sentinel `redis.Nil`: the key or the field does not exist. -/
  | redisNil
  /-- A failure reported by the Redis client (transport, protocol, cancelled context). -/
  | store (msg : String)
  /-- The error `strconv.ErrSyntax` wrapped by `strconv.ParseUint`. -/
  | numSyntax
  /-- The error `strconv.ErrRange` wrapped by `strconv.ParseUint`. -/
  | numRange
  /-- An error of `encoding/json`. -/
  | json (msg : String)
  deriving DecidableEq, Repr

/-- Modelled from the spec: the message of a registration, the record
`types.RegisterValidatorRequestMessage` that the cache imports; its declaration is not
part of the repository. Byte arrays are lists of bytes. -/
structure RegisterValidatorRequestMessage where
  FeeRecipient : List Nat
  GasLimit : Nat
  Timestamp : Nat
  Pubkey : List Nat
  deriving DecidableEq, Repr

/-- Modelled from the spec: the signed registration, the record
`types.SignedValidatorRegistration` that the cache imports; its declaration is not part of
the repository. Its `Message` is taken to be present: reading `entry.Message` is the first
thing `SetValidatorRegistration` does. -/
structure SignedValidatorRegistration where
  Message : RegisterValidatorRequestMessage
  Signature : List Nat
  deriving DecidableEq, Repr

/-- The zero value that `new(types.SignedValidatorRegistration)` allocates. -/
def SignedValidatorRegistration.zero : SignedValidatorRegistration :=
  { Message := { FeeRecipient := List.replicate 20 0, GasLimit := 0, Timestamp := 0,
                 Pubkey := List.replicate 48 0 },
    Signature := List.replicate 96 0 }

/-- The library functions that the cache calls, whose code is outside the repository and
whose results are left open. -/
structure Lib where
  /-- The function `unicode.ToLower` on the runes from `0x80` upwards. -/
  unicodeToLower : Char → Char
  /-- The function `json.Marshal` on a registration: the bytes and the error. -/
  marshal : SignedValidatorRegistration → String × Option Error
  /-- The function `json.Unmarshal` into a freshly allocated registration:
  the record as it is left and the error. -/
  unmarshal : String → SignedValidatorRegistration × Option Error

/-! ## `strings.ToLower` -/

/-- The case mapping of one rune, as `strings.ToLower` applies it: `A`..`Z` move to
`a`..`z`, the other ASCII runes stay, the rest goes through the Unicode table. -/
def toLowerRune (lib : Lib) (c : Char) : Char :=
  if c.toNat < 128 then
    if 65 ≤ c.toNat ∧ c.toNat ≤ 90 then Char.ofNat (c.toNat + 32) else c
  else lib.unicodeToLower c

/-- Modelled from the spec: the normalisation of a pubkey to lower case, the function
`strings.ToLower` of the Go library. -/
def ToLower (lib : Lib) (s : String) : String :=
  ⟨s.data.map (toLowerRune lib)⟩

/-- The function `PubkeyHexToLowerStr` (a `types.PubkeyHex` is a string). -/
def PubkeyHexToLowerStr (lib : Lib) (pk : String) : String :=
  ToLower lib pk

/-! ## `strconv` -/

/-- The decimal digit of a number below ten. -/
def digitChar (d : Nat) : Char :=
  Char.ofNat (48 + d % 10)

/-- The digits of `u`, most significant first, in front of `acc`. -/
def formatDigits : Nat → Nat → List Char → List Char
  | 0, _, acc => acc
  | fuel + 1, u, acc =>
    if u < 10 then digitChar u :: acc
    else formatDigits fuel (u / 10) (digitChar (u % 10) :: acc)

/-- Modelled from the spec: the base-10 text under which an index or a timestamp is
stored, the function `strconv.FormatUint(u, 10)` that the Redis client applies to a
`uint64` argument. A `uint64` has at most twenty digits. -/
def FormatUint (u : Nat) : String :=
  ⟨formatDigits 20 (u % 2 ^ 64) []⟩

/-- The largest `uint64`. -/
def maxUint64 : Nat := 2 ^ 64 - 1

/-- The loop of `strconv.ParseUint(s, 10, 64)` over the bytes still to read, `n` being the
number read so far. A rune from `0x80` upwards is made of bytes that are no digits. -/
def parseUintLoop : List Char → Nat → Nat × Option Error
  | [], n => (n, none)
  | c :: cs, n =>
    if 48 ≤ c.toNat ∧ c.toNat ≤ 57 then
      let d := c.toNat - 48
      if n ≥ maxUint64 / 10 + 1 then (maxUint64, some Error.numRange)
      else
        let n10 := n * 10 % 2 ^ 64
        let n1 := (n10 + d) % 2 ^ 64
        if n1 < n10 ∨ n1 > maxUint64 then (maxUint64, some Error.numRange)
        else parseUintLoop cs n1
    else (0, some Error.numSyntax)

/-- Modelled from the spec: the reading of a base-10 text as a non-negative integer, the
function `strconv.ParseUint(s, 10, 64)` of the Go library. -/
def ParseUint (s : String) : Nat × Option Error :=
  if s.data = [] then (0, some Error.numSyntax) else parseUintLoop s.data 0

/-! ## The Redis server seen through the client -/

/-- A Redis hash: fields with their values, no field twice. -/
abbrev Hash := AList (fun _ : String => String)

/-- The keys of the server that hold a hash. -/
abbrev Database := AList (fun _ : String => Hash)

/-- The commands the cache sends. -/
inductive Command where
  | ping
  | hset (key field value : String)
  | hget (key field : String)
  | hgetall (key : String)
  | hlen (key : String)
  deriving DecidableEq, Repr

/-- A failure that the client reports for a command: the message, and whether the server
has carried the command out all the same (the reply was lost, or the context expired
after the command was written). -/
structure Fault where
  msg : String
  applied : Bool
  deriving DecidableEq, Repr

/-- The server and the connection to it: the stored hashes, for each coming command
whether the client will report a failure (`some fault`) or the server answers (`none`;
also when the list is used up), and the commands sent so far. -/
structure Redis where
  db : Database
  faults : List (Option Fault)
  log : List Command
  deriving DecidableEq

/-- A server without any key, answering every command. -/
def Redis.empty : Redis :=
  { db := ∅, faults := [], log := [] }

/-- The failure the client reports for the next command, if any. -/
def Redis.nextFault (w : Redis) : Option Fault :=
  w.faults.head?.join

/-- The connection once the command `c` has been sent. -/
def Redis.sent (w : Redis) (c : Command) : Redis :=
  { w with faults := w.faults.tail, log := w.log ++ [c] }

/-- The hash stored at a key; a key that does not exist reads as the empty hash. -/
def Database.hash (db : Database) (key : String) : Hash :=
  (db.lookup key).getD ∅

/-- The value of a field of the hash at a key. -/
def Database.field (db : Database) (key field : String) : Option String :=
  (db.hash key).lookup field

/-- The stored hashes once a field of the hash at a key is set; the hash is created
when the key does not exist. -/
def Database.hset (db : Database) (key field value : String) : Database :=
  db.insert key ((db.hash key).insert field value)

/-- Modelled from the spec: the store operation set-field, the command
`HSET key field value` of the Redis client and its `.Err()`. A command that the client
reports as failed has either not reached the server or been carried out by it, as the
fault says; nothing is rolled back. -/
def HSet (w : Redis) (key field value : String) : Option Error × Redis :=
  let w1 := w.sent (Command.hset key field value)
  match w.nextFault with
  | some fault =>
    (some (Error.store fault.msg),
      if fault.applied then { w1 with db := w.db.hset key field value } else w1)
  | none => (none, { w1 with db := w.db.hset key field value })

/-- Modelled from the spec: the store operation get-field, the command `HGET key field`
of the Redis client and its `.Result()`: `redis.Nil` when there is no such field. -/
def HGet (w : Redis) (key field : String) : (String × Option Error) × Redis :=
  let w1 := w.sent (Command.hget key field)
  match w.nextFault with
  | some fault => (("", some (Error.store fault.msg)), w1)
  | none =>
    match w.db.field key field with
    | none => (("", some Error.redisNil), w1)
    | some v => ((v, none), w1)

/-- Modelled from the spec: the store operation get-all-fields, the command
`HGETALL key` of the Redis client and its `.Result()`. -/
def HGetAll (w : Redis) (key : String) : (Hash × Option Error) × Redis :=
  let w1 := w.sent (Command.hgetall key)
  match w.nextFault with
  | some fault => ((∅, some (Error.store fault.msg)), w1)
  | none => ((w.db.hash key, none), w1)

/-- Modelled from the spec: the store operation field-count, the command `HLEN key` of
the Redis client and its `.Result()`. -/
def HLen (w : Redis) (key : String) : (Nat × Option Error) × Redis :=
  let w1 := w.sent (Command.hlen key)
  match w.nextFault with
  | some fault => ((0, some (Error.store fault.msg)), w1)
  | none => (((w.db.hash key).entries.length, none), w1)

/-- Modelled from the spec: the liveness probe, the command `PING` of the Redis client
and its `.Result()`. -/
def Ping (w : Redis) : (String × Option Error) × Redis :=
  let w1 := w.sent Command.ping
  match w.nextFault with
  | some fault => (("", some (Error.store fault.msg)), w1)
  | none => (("PONG", none), w1)

/-! ## `types.PublicKey` -/

/-- One lower-case hexadecimal digit. -/
def hexDigit (n : Nat) : Char :=
  if n % 16 < 10 then Char.ofNat (48 + n % 16) else Char.ofNat (87 + n % 16)

/-- The lower-case hexadecimal form of a byte string, two digits a byte. -/
def hexEncode : List Nat → List Char
  | [] => []
  | b :: bs => hexDigit (b % 256 / 16) :: hexDigit (b % 256) :: hexEncode bs

/-- Modelled from the spec: the hex-encoded form of a public key, the method
`PublicKey.PubkeyHex` followed by `String`: the text `0x` and the hexadecimal digits of
the key, made lower-case by `types.NewPubkeyHex`. -/
def PubkeyHex (lib : Lib) (pk : List Nat) : String :=
  ToLower lib ⟨'0' :: 'x' :: hexEncode pk⟩

/-! ## The cache -/

/-- The variable `redisPrefix`. -/
def redisPrefix : String := "boost-relay"

/-- The function `connectRedis`: a client is known by the address it was made for,
and `none` is the nil pointer. -/
def connectRedis (w : Redis) (redisURI : String) : (Option String × Option Error) × Redis :=
  match Ping w with
  | ((_, some err), w1) => ((none, some err), w1)
  | ((_, none), w1) => ((some redisURI, none), w1)

/-- The record `RedisCache`. -/
structure RedisCache where
  client : Option String
  keyKnownValidators : String
  keyValidatorRegistration : String
  keyValidatorRegistrationTimestamp : String
  deriving DecidableEq, Repr

/-- The function `NewRedisCache`; `pfx` is its second parameter. -/
def NewRedisCache (w : Redis) (redisURI : String) (pfx : String) :
    (Option RedisCache × Option Error) × Redis :=
  match connectRedis w redisURI with
  | ((_, some err), w1) => ((none, some err), w1)
  | ((client, none), w1) =>
    ((some { client := client,
             keyKnownValidators := redisPrefix ++ "/" ++ pfx ++ ":known-validators",
             keyValidatorRegistration :=
               redisPrefix ++ "/" ++ pfx ++ ":validators-registration-timestamp",
             keyValidatorRegistrationTimestamp :=
               redisPrefix ++ "/" ++ pfx ++ ":validators-registration" }, none), w1)

/-- The loop of `GetKnownValidators` over the fields that were read. -/
def collectValidators (entries : List (Sigma fun _ : String => String))
    (validators : AList (fun _ : String => Nat)) : AList (fun _ : String => Nat) :=
  entries.foldl
    (fun acc e => match ParseUint e.2 with
      | (proposerIndex, none) => acc.insert e.1 proposerIndex
      | (_, some _) => acc)
    validators

/-- The method `GetKnownValidators`. -/
def GetKnownValidators (r : RedisCache) (w : Redis) :
    (Option (AList (fun _ : String => Nat)) × Option Error) × Redis :=
  match HGetAll w r.keyKnownValidators with
  | ((_, some err), w1) => ((none, some err), w1)
  | ((entries, none), w1) => ((some (collectValidators entries.entries ∅), none), w1)

/-- The method `SetKnownValidator`. -/
def SetKnownValidator (lib : Lib) (r : RedisCache) (w : Redis) (pubkeyHex : String)
    (proposerIndex : Nat) : Option Error × Redis :=
  HSet w r.keyKnownValidators (PubkeyHexToLowerStr lib pubkeyHex) (FormatUint proposerIndex)

/-- The method `GetValidatorRegistration`. -/
def GetValidatorRegistration (lib : Lib) (r : RedisCache) (w : Redis) (proposerPubkey : String) :
    (Option SignedValidatorRegistration × Option Error) × Redis :=
  match HGet w r.keyValidatorRegistration (ToLower lib proposerPubkey) with
  | ((value, err), w1) =>
    if err = some Error.redisNil then ((none, none), w1)
    else if err ≠ none then ((none, err), w1)
    else
      let (registration, err) := lib.unmarshal value
      ((some registration, err), w1)

/-- The method `Uint64` of the command result: the error of the command, or the value
parsed by `strconv.ParseUint(val, 10, 64)`. -/
def cmdUint64 (res : String × Option Error) : Nat × Option Error :=
  match res with
  | (_, some err) => (0, some err)
  | (val, none) => ParseUint val

/-- The method `GetValidatorRegistrationTimestamp`. -/
def GetValidatorRegistrationTimestamp (lib : Lib) (r : RedisCache) (w : Redis)
    (proposerPubkey : String) : (Nat × Option Error) × Redis :=
  match HGet w r.keyValidatorRegistrationTimestamp (ToLower lib proposerPubkey) with
  | (res, w1) =>
    let (timestamp, err) := cmdUint64 res
    if err = some Error.redisNil then ((0, none), w1)
    else ((timestamp, err), w1)

/-- The method `SetValidatorRegistration`. -/
def SetValidatorRegistration (lib : Lib) (r : RedisCache) (w : Redis)
    (entry : SignedValidatorRegistration) : Option Error × Redis :=
  match HSet w r.keyValidatorRegistrationTimestamp
      (ToLower lib (PubkeyHex lib entry.Message.Pubkey)) (FormatUint entry.Message.Timestamp) with
  | (some err, w1) => (some err, w1)
  | (none, w1) =>
    match lib.marshal entry with
    | (_, some err) => (some err, w1)
    | (marshalledValue, none) =>
      HSet w1 r.keyValidatorRegistration
        (ToLower lib (PubkeyHex lib entry.Message.Pubkey)) marshalledValue

/-- The method `SetValidatorRegistrations`. -/
def SetValidatorRegistrations (lib : Lib) (r : RedisCache) (w : Redis) :
    List SignedValidatorRegistration → Option Error × Redis
  | [] => (none, w)
  | entry :: entries =>
    match SetValidatorRegistration lib r w entry with
    | (some err, w1) => (some err, w1)
    | (none, w1) => SetValidatorRegistrations lib r w1 entries

/-- The method `NumRegisteredValidators`. -/
def NumRegisteredValidators (r : RedisCache) (w : Redis) : (Int × Option Error) × Redis :=
  match HLen w r.keyValidatorRegistrationTimestamp with
  | ((n, err), w1) => ((Int.ofNat n, err), w1)

/-! ## Notions used to state the properties -/

/-- The three hashes the cache keeps. -/
inductive LogicalMap where
  | knownValidators
  | registration
  | registrationTimestamp
  deriving DecidableEq, Repr

/-- The key under which a cache keeps one of its hashes. -/
def RedisCache.key (r : RedisCache) : LogicalMap → String
  | LogicalMap.knownValidators => r.keyKnownValidators
  | LogicalMap.registration => r.keyValidatorRegistration
  | LogicalMap.registrationTimestamp => r.keyValidatorRegistrationTimestamp

/-- The number that a run of decimal digits denotes, read after the number `n`. -/
def decimalValue (cs : List Char) (n : Nat) : Nat :=
  cs.foldl (fun n c => n * 10 + (c.toNat - 48)) n

/-- Whether a rune is one of `0`..`9`. -/
def IsDigit (c : Char) : Prop := 48 ≤ c.toNat ∧ c.toNat ≤ 57

/-- Whether a rune is one of `A`..`Z`. -/
def IsUpperASCII (c : Char) : Prop := 65 ≤ c.toNat ∧ c.toNat ≤ 90

/-- Two runes that are the same, or the same ASCII letter in its two cases. -/
def SameLetter (a b : Char) : Prop :=
  a = b ∨ (IsUpperASCII a ∧ b.toNat = a.toNat + 32) ∨
    (IsUpperASCII b ∧ a.toNat = b.toNat + 32)

/-- The string `p` is `s` in some letter case: rune by rune the same letter. -/
def CaseVariant (p s : String) : Prop :=
  List.Forall₂ SameLetter p.data s.data

instance (c : Char) : Decidable (IsUpperASCII c) :=
  inferInstanceAs (Decidable (65 ≤ c.toNat ∧ c.toNat ≤ 90))

instance (a b : Char) : Decidable (SameLetter a b) :=
  inferInstanceAs (Decidable (a = b ∨ (IsUpperASCII a ∧ b.toNat = a.toNat + 32) ∨
    (IsUpperASCII b ∧ a.toNat = b.toNat + 32)))

instance (p s : String) : Decidable (CaseVariant p s) :=
  inferInstanceAs (Decidable (List.Forall₂ SameLetter p.data s.data))

/-- The field of the two registration hashes under which an entry is kept. -/
def registrationField (lib : Lib) (entry : SignedValidatorRegistration) : String :=
  ToLower lib (PubkeyHex lib entry.Message.Pubkey)

/-- The entry goes through `json.Marshal` and `json.Unmarshal` and comes back as it was. -/
def Lossless (lib : Lib) (entry : SignedValidatorRegistration) : Prop :=
  ∃ bs, lib.marshal entry = (bs, none) ∧ lib.unmarshal bs = (entry, none)

/-- The connection after an `HSET` that the client reported as failed with `fault`: the
command has been sent, and the field is set when the server carried the command out. -/
def afterFailedWrite (w : Redis) (key field value : String) (fault : Fault) : Redis :=
  if fault.applied then
    { w.sent (Command.hset key field value) with db := w.db.hset key field value }
  else w.sent (Command.hset key field value)

/-- The connection after the timestamp write of an entry was answered. -/
def afterTimestampWrite (lib : Lib) (c : RedisCache) (w : Redis)
    (entry : SignedValidatorRegistration) : Redis :=
  { db := w.db.hset c.keyValidatorRegistrationTimestamp (registrationField lib entry)
            (FormatUint entry.Message.Timestamp),
    faults := w.faults.tail,
    log := w.log ++ [Command.hset c.keyValidatorRegistrationTimestamp
                      (registrationField lib entry) (FormatUint entry.Message.Timestamp)] }

/-- The call of `SetValidatorRegistration` on the entry fails at the payload write, and
the server has carried that write out although the client reports it as failed. -/
def PayloadWriteLost (lib : Lib) (c : RedisCache) (w : Redis)
    (entry : SignedValidatorRegistration) : Prop :=
  w.nextFault = none ∧ (lib.marshal entry).2 = none ∧
    ∃ fault, (afterTimestampWrite lib c w entry).nextFault = some fault ∧ fault.applied = true

/-- The connection after `SetValidatorRegistration` was applied to the entries one by one,
in the order of the list. -/
def applyInOrder (lib : Lib) (c : RedisCache) (w : Redis)
    (entries : List SignedValidatorRegistration) : Redis :=
  entries.foldl (fun w entry => (SetValidatorRegistration lib c w entry).2) w

/-- Applied one by one from `w`, `SetValidatorRegistration` returns no error for any of
the entries. -/
def EachSucceeds (lib : Lib) (c : RedisCache) : Redis → List SignedValidatorRegistration → Prop
  | _, [] => True
  | w, entry :: entries =>
    (SetValidatorRegistration lib c w entry).1 = none ∧
      EachSucceeds lib c (SetValidatorRegistration lib c w entry).2 entries

/-- A write through the cache. -/
inductive Call where
  | setKnownValidator (pubkeyHex : String) (proposerIndex : Nat)
  | setValidatorRegistration (entry : SignedValidatorRegistration)
  | setValidatorRegistrations (entries : List SignedValidatorRegistration)

/-- The write carried out. -/
def Call.run (lib : Lib) (c : RedisCache) (w : Redis) : Call → Option Error × Redis
  | Call.setKnownValidator pubkeyHex proposerIndex =>
    SetKnownValidator lib c w pubkeyHex proposerIndex
  | Call.setValidatorRegistration entry => SetValidatorRegistration lib c w entry
  | Call.setValidatorRegistrations entries => SetValidatorRegistrations lib c w entries

/-- The registrations that a write carries. -/
def Call.entries : Call → List SignedValidatorRegistration
  | Call.setKnownValidator _ _ => []
  | Call.setValidatorRegistration entry => [entry]
  | Call.setValidatorRegistrations entries => entries

/-- The registrations that a sequence of writes carries, in order. -/
def entriesOf : List Call → List SignedValidatorRegistration
  | [] => []
  | k :: ks => k.entries ++ entriesOf ks

/-- The connection after the writes were carried out one after the other. -/
def afterCalls (lib : Lib) (c : RedisCache) (w : Redis) (calls : List Call) : Redis :=
  calls.foldl (fun w k => (k.run lib c w).2) w

/-- Carried out one after the other from `w`, every write returns no error. -/
def AllSucceed (lib : Lib) (c : RedisCache) : Redis → List Call → Prop
  | _, [] => True
  | w, k :: ks => (k.run lib c w).1 = none ∧ AllSucceed lib c (k.run lib c w).2 ks

/-- The last registration of a list that is kept under the field `f`. -/
def latest (lib : Lib) (regs : List SignedValidatorRegistration) (f : String) :
    Option SignedValidatorRegistration :=
  regs.foldl (fun acc r => if registrationField lib r = f then some r else acc) none

/-- The two registration hashes hold, field by field, the timestamp text and the JSON
text of the last registration of `regs` for that field, and nothing else. -/
def Tracks (lib : Lib) (c : RedisCache) (db : Database)
    (regs : List SignedValidatorRegistration) : Prop :=
  (∀ r ∈ regs, (lib.marshal r).2 = none) ∧
  ∀ f, db.field c.keyValidatorRegistrationTimestamp f =
        (latest lib regs f).map (fun r => FormatUint r.Message.Timestamp) ∧
       db.field c.keyValidatorRegistration f =
        (latest lib regs f).map (fun r => (lib.marshal r).1)

/-- Every field of the known-validators hash is the lower-case form of some text. -/
def LowerFields (lib : Lib) (c : RedisCache) (db : Database) : Prop :=
  ∀ f, (db.field c.keyKnownValidators f).isSome → ∃ q, f = ToLower lib q

/-! ## An instance of the library parameters

The registration as the relay API writes it in JSON, read back from exactly that form,
and a case table that leaves the runes outside ASCII where they are. It is used to run
the cache on concrete values. -/

/-- The text of a byte string: `0x` and the hexadecimal digits. -/
def hexText (bs : List Nat) : List Char :=
  '0' :: 'x' :: hexEncode bs

/-- The JSON text of a registration. -/
def jsonMarshal (e : SignedValidatorRegistration) : String :=
  ⟨"\x7b\"message\":\x7b\"fee_recipient\":\"".data ++ hexText e.Message.FeeRecipient ++
    "\",\"gas_limit\":\"".data ++ (FormatUint e.Message.GasLimit).data ++
    "\",\"timestamp\":\"".data ++ (FormatUint e.Message.Timestamp).data ++
    "\",\"pubkey\":\"".data ++ hexText e.Message.Pubkey ++
    "\"\x7d,\"signature\":\"".data ++ hexText e.Signature ++ "\"\x7d".data⟩

/-- The input after a literal text, when it starts with it. -/
def expectText : List Char → List Char → Option (List Char)
  | [], cs => some cs
  | _ :: _, [] => none
  | p :: ps, c :: cs => if p = c then expectText ps cs else none

/-- The runes in front of the next double quote, and the input from that quote on. -/
def untilQuote : List Char → List Char × List Char
  | [] => ([], [])
  | c :: cs =>
    if c.toNat = 34 then ([], c :: cs)
    else ((untilQuote cs).1.cons c, (untilQuote cs).2)

/-- The value of a hexadecimal digit. -/
def hexValue (c : Char) : Option Nat :=
  if 48 ≤ c.toNat ∧ c.toNat ≤ 57 then some (c.toNat - 48)
  else if 97 ≤ c.toNat ∧ c.toNat ≤ 102 then some (c.toNat - 87)
  else if 65 ≤ c.toNat ∧ c.toNat ≤ 70 then some (c.toNat - 55)
  else none

/-- The bytes that a run of hexadecimal digits denotes. -/
def hexDecode : List Char → Option (List Nat)
  | [] => some []
  | [_] => none
  | a :: b :: cs =>
    match hexValue a, hexValue b, hexDecode cs with
    | some x, some y, some bs => some ((16 * x + y) :: bs)
    | _, _, _ => none

/-- The bytes of a text made of `0x` and hexadecimal digits. -/
def hexBytes (cs : List Char) : Option (List Nat) :=
  (expectText ['0', 'x'] cs).bind hexDecode

/-- The number that a decimal text denotes, when it denotes a `uint64`. -/
def decimalField (cs : List Char) : Option Nat :=
  match ParseUint ⟨cs⟩ with
  | (n, none) => some n
  | (_, some _) => none

/-- The registration that a JSON text in the form of `jsonMarshal` denotes. -/
def jsonParse (cs : List Char) : Option SignedValidatorRegistration := do
  let cs ← expectText "\x7b\"message\":\x7b\"fee_recipient\":\"".data cs
  let feeRecipient ← hexBytes (untilQuote cs).1
  let cs ← expectText "\",\"gas_limit\":\"".data (untilQuote cs).2
  let gasLimit ← decimalField (untilQuote cs).1
  let cs ← expectText "\",\"timestamp\":\"".data (untilQuote cs).2
  let timestamp ← decimalField (untilQuote cs).1
  let cs ← expectText "\",\"pubkey\":\"".data (untilQuote cs).2
  let pubkey ← hexBytes (untilQuote cs).1
  let cs ← expectText "\"\x7d,\"signature\":\"".data (untilQuote cs).2
  let signature ← hexBytes (untilQuote cs).1
  let cs ← expectText "\"\x7d".data (untilQuote cs).2
  if cs = [] then
    some { Message := { FeeRecipient := feeRecipient, GasLimit := gasLimit,
                        Timestamp := timestamp, Pubkey := pubkey },
           Signature := signature }
  else none

/-- The instance: JSON as above, no case mapping outside ASCII. -/
def jsonLib : Lib :=
  { unicodeToLower := fun c => c,
    marshal := fun e => (jsonMarshal e, none),
    unmarshal := fun s =>
      match jsonParse s.data with
      | some e => (e, none)
      | none => (SignedValidatorRegistration.zero, some (Error.json "invalid registration")) }

/-! ## Values to run the cache on -/

/-- The cache that `NewRedisCache` builds for the tag `mainnet` at `localhost:6379`. -/
def mainnetCache : RedisCache :=
  { client := some "localhost:6379",
    keyKnownValidators := "boost-relay/mainnet:known-validators",
    keyValidatorRegistration := "boost-relay/mainnet:validators-registration-timestamp",
    keyValidatorRegistrationTimestamp := "boost-relay/mainnet:validators-registration" }

/-- A connection on which one command has been sent already. -/
def usedConnection : Redis :=
  { db := ∅, faults := [none, none], log := [Command.hlen "other"] }

/-- The cache for the tag `a`. -/
def nestedCacheA : RedisCache :=
  { client := some "localhost:6379",
    keyKnownValidators := "boost-relay/a:known-validators",
    keyValidatorRegistration := "boost-relay/a:validators-registration-timestamp",
    keyValidatorRegistrationTimestamp := "boost-relay/a:validators-registration" }

/-- The cache for the tag `a:validators-registration`. -/
def nestedCacheB : RedisCache :=
  { client := some "localhost:6379",
    keyKnownValidators := "boost-relay/a:validators-registration:known-validators",
    keyValidatorRegistration :=
      "boost-relay/a:validators-registration:validators-registration-timestamp",
    keyValidatorRegistrationTimestamp :=
      "boost-relay/a:validators-registration:validators-registration" }

/-- A registration of the validator with the key `0xcd…cd`. -/
def validatorOne : SignedValidatorRegistration :=
  { Message := { FeeRecipient := List.replicate 20 171, GasLimit := 30000000,
                 Timestamp := 1660000000, Pubkey := List.replicate 48 205 },
    Signature := List.replicate 96 18 }

/-- A later registration of the same validator. -/
def validatorOneLater : SignedValidatorRegistration :=
  { Message := { FeeRecipient := List.replicate 20 186, GasLimit := 29000000,
                 Timestamp := 1670000000, Pubkey := List.replicate 48 205 },
    Signature := List.replicate 96 52 }

/-- A registration of the validator with the key `0x12…12`. -/
def validatorTwo : SignedValidatorRegistration :=
  { Message := { FeeRecipient := List.replicate 20 1, GasLimit := 30000000,
                 Timestamp := 18446744073709551615, Pubkey := List.replicate 48 18 },
    Signature := List.replicate 96 86 }

/-- The key of `validatorOne` written in upper case. -/
def validatorOneUpper : String :=
  "0XCDCDCDCDCDCDCDCDCDCDCDCDCDCDCDCDCDCDCDCDCDCDCDCDCDCDCDCDCDCDCDCDCDCDCDCDCDCDCDCDCDCDCDCDCDCDCDCD"

/-- The key of `validatorTwo`. -/
def validatorTwoHex : String :=
  "0x121212121212121212121212121212121212121212121212121212121212121212121212121212121212121212121212"

/-- A store that holds the first validator, on a connection that will answer one more
command and then report a timeout. -/
def storeBeforeOutage : Redis :=
  { (SetValidatorRegistration jsonLib mainnetCache Redis.empty validatorOne).2 with
    faults := [none, some { msg := "i/o timeout", applied := false }] }

/-- An empty store on a connection that answers three commands and then reports a
timeout. -/
def flakyConnection : Redis :=
  { db := ∅, faults := [none, none, none, some { msg := "i/o timeout", applied := false }],
    log := [] }

/-- A store whose known-validators hash holds two values that are no `uint64`. -/
def storeWithMalformed : Redis :=
  { db := (((∅ : Database).hset mainnetCache.keyKnownValidators "0xaa" "7").hset
            mainnetCache.keyKnownValidators "0xbb" "seven").hset
              mainnetCache.keyKnownValidators "0xcc" "18446744073709551616",
    faults := [], log := [] }

/-- A store that holds the first validator, on a connection that will answer one more
command and then report a timeout for a command that the server has carried out. -/
def storeBeforeLostReply : Redis :=
  { (SetValidatorRegistration jsonLib mainnetCache Redis.empty validatorOne).2 with
    faults := [none, some { msg := "i/o timeout", applied := true }] }

/-- A store that holds the first validator, on a connection that will report a timeout
for the next command, which the server has carried out. -/
def storeAtLostReply : Redis :=
  { (SetValidatorRegistration jsonLib mainnetCache Redis.empty validatorOne).2 with
    faults := [some { msg := "i/o timeout", applied := true }] }

/-- An empty store on a connection that answers three commands and then reports a
timeout for a command that the server has carried out. -/
def lostReplyConnection : Redis :=
  { db := ∅, faults := [none, none, none, some { msg := "i/o timeout", applied := true }],
    log := [] }

/-- Three writes: the first validator, then a batch of the second validator and the first
one again, then a known validator. -/
def threeWrites : List Call :=
  [Call.setValidatorRegistration validatorOne,
   Call.setValidatorRegistrations [validatorTwo, validatorOneLater],
   Call.setKnownValidator validatorOneUpper 7]

/-! ## Lemmas -/

/-! ### The keys -/

theorem NewRedisCache_ok {w : Redis} {uri t : String} {c : RedisCache} {w' : Redis}
    (h : NewRedisCache w uri t = ((some c, none), w')) :
    c.keyKnownValidators = "boost-relay/" ++ t ++ ":known-validators" ∧
    c.keyValidatorRegistration = "boost-relay/" ++ t ++ ":validators-registration-timestamp" ∧
    c.keyValidatorRegistrationTimestamp = "boost-relay/" ++ t ++ ":validators-registration" := by
  unfold NewRedisCache at h
  split at h
  · simp at h
  · simp only [Prod.mk.injEq, Option.some.injEq] at h
    obtain ⟨⟨hc, -⟩, -⟩ := h
    subst hc
    refine ⟨rfl, rfl, rfl⟩

theorem NewRedisCache_answered (w : Redis) (uri t : String) (h : w.nextFault = none) :
    ∃ c, NewRedisCache w uri t = ((some c, none), w.sent Command.ping) := by
  simp [NewRedisCache, connectRedis, Ping, h]

theorem getLast?_data_append (t s : String) (h : s.data ≠ []) :
    (t ++ s).data.getLast? = s.data.getLast? := by
  rw [String.data_append, List.getLast?_append]
  cases hs : s.data.getLast? with
  | none => exact absurd (List.getLast?_eq_none_iff.mp hs) h
  | some c => simp

theorem append_right_cancel (t1 t2 s : String) (h : t1 ++ s = t2 ++ s) : t1 = t2 := by
  have := congrArg String.data h
  rw [String.data_append, String.data_append] at this
  exact String.ext (List.append_cancel_right this)

theorem append_left_cancel (p t1 t2 : String) (h : p ++ t1 = p ++ t2) : t1 = t2 := by
  have := congrArg String.data h
  rw [String.data_append, String.data_append] at this
  exact String.ext (List.append_cancel_left this)

theorem key_injective {w1 w2 : Redis} {u1 u2 t1 t2 : String} {c1 c2 : RedisCache} {w1' w2' : Redis}
    (h1 : NewRedisCache w1 u1 t1 = ((some c1, none), w1'))
    (h2 : NewRedisCache w2 u2 t2 = ((some c2, none), w2'))
    (m1 m2 : LogicalMap) (h : c1.key m1 = c2.key m2) : t1 = t2 ∧ m1 = m2 := by
  obtain ⟨a1, b1, d1⟩ := NewRedisCache_ok h1
  obtain ⟨a2, b2, d2⟩ := NewRedisCache_ok h2
  have hl := congrArg (fun s : String => s.data.getLast?) h
  cases m1 <;> cases m2 <;>
    simp only [RedisCache.key, a1, b1, d1, a2, b2, d2] at h hl <;>
    first
    | exact ⟨append_left_cancel _ _ _ (append_right_cancel _ _ _ h), rfl⟩
    | (rw [getLast?_data_append _ _ (by decide), getLast?_data_append _ _ (by decide)] at hl
       exact absurd hl (by decide))

/-! ### The decimal text of a `uint64` -/

theorem decimalValue_cons (c : Char) (cs : List Char) (n : Nat) :
    decimalValue (c :: cs) n = decimalValue cs (n * 10 + (c.toNat - 48)) := rfl

theorem le_decimalValue (cs : List Char) (n : Nat) : n ≤ decimalValue cs n := by
  induction cs generalizing n with
  | nil => exact Nat.le_refl _
  | cons c cs ih =>
    rw [decimalValue_cons]
    exact Nat.le_trans (by omega) (ih _)

theorem parseUintLoop_digits (cs : List Char) (n : Nat) (hd : ∀ c ∈ cs, IsDigit c)
    (hv : decimalValue cs n < 2 ^ 64) : parseUintLoop cs n = (decimalValue cs n, none) := by
  induction cs generalizing n with
  | nil => rfl
  | cons c cs ih =>
    have hc : IsDigit c := hd c (List.mem_cons_self _ _)
    rw [decimalValue_cons] at hv ⊢
    have hle := le_decimalValue cs (n * 10 + (c.toNat - 48))
    have hlt : n * 10 + (c.toNat - 48) < 2 ^ 64 := Nat.lt_of_le_of_lt hle hv
    have h1 : n * 10 % 2 ^ 64 = n * 10 := Nat.mod_eq_of_lt (by omega)
    have h2 : (n * 10 + (c.toNat - 48)) % 2 ^ 64 = n * 10 + (c.toNat - 48) := Nat.mod_eq_of_lt hlt
    have h3 : ¬ n ≥ maxUint64 / 10 + 1 := by
      norm_num [maxUint64] at hlt ⊢
      omega
    have h4 : ¬ (n * 10 + (c.toNat - 48) < n * 10 ∨ n * 10 + (c.toNat - 48) > maxUint64) := by
      norm_num [maxUint64] at hlt ⊢
      omega
    unfold parseUintLoop
    unfold IsDigit at hc
    simp only [hc, and_self, if_true, h1, h2, h3, h4, if_false]
    exact ih _ (fun c' hc' => hd c' (List.mem_cons_of_mem _ hc')) hv

theorem toNat_ofNat_small (n : Nat) (h : n < 128) : (Char.ofNat n).toNat = n := by
  have hv : n.isValidChar := by
    left
    omega
  unfold Char.ofNat
  rw [dif_pos hv]
  simp only [Char.ofNatAux, Char.toNat]
  show (BitVec.ofNatLt n _).toNat = n
  simp

theorem digitChar_toNat (d : Nat) : (digitChar d).toNat = 48 + d % 10 := by
  unfold digitChar
  exact toNat_ofNat_small _ (by omega)

theorem digitChar_isDigit (d : Nat) : IsDigit (digitChar d) := by
  unfold IsDigit
  rw [digitChar_toNat]
  omega

theorem formatDigits_digits (fuel u : Nat) (acc : List Char) (hacc : ∀ c ∈ acc, IsDigit c) :
    ∀ c ∈ formatDigits fuel u acc, IsDigit c := by
  induction fuel generalizing u acc with
  | zero => exact hacc
  | succ fuel ih =>
    unfold formatDigits
    split
    · intro c hc
      rcases List.mem_cons.mp hc with h | h
      · exact h ▸ digitChar_isDigit u
      · exact hacc c h
    · apply ih
      intro c hc
      rcases List.mem_cons.mp hc with h | h
      · exact h ▸ digitChar_isDigit _
      · exact hacc c h

theorem formatDigits_value (fuel u : Nat) (acc : List Char) (hu : u < 10 ^ fuel) :
    decimalValue (formatDigits fuel u acc) 0 = decimalValue acc u := by
  induction fuel generalizing u acc with
  | zero =>
    have : u = 0 := by simpa using hu
    subst this
    rfl
  | succ fuel ih =>
    unfold formatDigits
    split
    · rename_i h
      rw [decimalValue_cons, digitChar_toNat]
      congr 1
      omega
    · rename_i h
      have hlt : u / 10 < 10 ^ fuel := by
        rw [Nat.div_lt_iff_lt_mul (by decide)]
        rw [pow_succ] at hu
        exact hu
      rw [ih _ _ hlt, decimalValue_cons, digitChar_toNat]
      congr 1
      omega

theorem formatDigits_ne_nil (fuel u : Nat) (acc : List Char) (h : acc ≠ [] ∨ 0 < fuel) :
    formatDigits fuel u acc ≠ [] := by
  induction fuel generalizing u acc with
  | zero =>
    rcases h with h | h
    · exact h
    · exact absurd h (by decide)
  | succ fuel ih =>
    unfold formatDigits
    split
    · exact List.cons_ne_nil _ _
    · exact ih _ _ (Or.inl (List.cons_ne_nil _ _))

/-- Round trip of the decimal text of a `uint64`. -/
theorem ParseUint_FormatUint (u : Nat) : ParseUint (FormatUint u) = (u % 2 ^ 64, none) := by
  have hlt : u % 2 ^ 64 < 2 ^ 64 := Nat.mod_lt _ (by positivity)
  have hfuel : u % 2 ^ 64 < 10 ^ 20 := Nat.lt_trans hlt (by norm_num)
  have hval := formatDigits_value 20 (u % 2 ^ 64) [] hfuel
  have hne := formatDigits_ne_nil 20 (u % 2 ^ 64) [] (Or.inr (by decide))
  have hdig := formatDigits_digits 20 (u % 2 ^ 64) [] (by simp)
  unfold ParseUint FormatUint
  simp only [hne, if_false]
  rw [parseUintLoop_digits _ _ hdig (by rw [hval]; exact hlt), hval]
  rfl

/-! ### The commands on the stored hashes -/

theorem hash_insert_self (db : Database) (k : String) (h : Hash) :
    Database.hash (db.insert k h) k = h := by
  simp [Database.hash]

theorem hash_insert_of_ne (db : Database) (k k' : String) (h : Hash) (hne : k' ≠ k) :
    Database.hash (db.insert k h) k' = db.hash k' := by
  simp [Database.hash, AList.lookup_insert_ne hne]

theorem field_insert_self (h : Hash) (f v : String) : (h.insert f v).lookup f = some v := by
  simp

theorem field_insert_of_ne (h : Hash) (f f' v : String) (hne : f' ≠ f) :
    (h.insert f v).lookup f' = h.lookup f' := by
  simp [AList.lookup_insert_ne hne]

theorem HSet_answered (w : Redis) (k f v : String) (h : w.nextFault = none) :
    HSet w k f v = (none, { db := w.db.hset k f v,
                            faults := w.faults.tail,
                            log := w.log ++ [Command.hset k f v] }) := by
  simp [HSet, h, Redis.sent]

theorem HSet_failed (w : Redis) (k f v : String) (fault : Fault)
    (h : w.nextFault = some fault) :
    HSet w k f v = (some (Error.store fault.msg), afterFailedWrite w k f v fault) := by
  simp [HSet, h, afterFailedWrite]

theorem HSet_ok_iff (w : Redis) (k f v : String) :
    (HSet w k f v).1 = none ↔ w.nextFault = none := by
  cases h : w.nextFault with
  | none => simp [HSet_answered w k f v h]
  | some fault => simp [HSet_failed w k f v fault h]

/-! ### Letter case -/

theorem toNat_inj {a b : Char} (h : a.toNat = b.toNat) : a = b := by
  apply Char.ext
  apply UInt32.ext
  exact h

theorem toLowerRune_upper (lib : Lib) (a b : Char) (ha : IsUpperASCII a)
    (hb : b.toNat = a.toNat + 32) : toLowerRune lib a = toLowerRune lib b := by
  unfold IsUpperASCII at ha
  have h1 : toLowerRune lib a = Char.ofNat (a.toNat + 32) := by
    unfold toLowerRune
    rw [if_pos (by omega), if_pos ha]
  have h2 : toLowerRune lib b = b := by
    unfold toLowerRune
    rw [if_pos (by omega), if_neg (by omega)]
  rw [h1, h2]
  apply toNat_inj
  rw [toNat_ofNat_small _ (by omega), hb]

theorem toLowerRune_sameLetter (lib : Lib) {a b : Char} (h : SameLetter a b) :
    toLowerRune lib a = toLowerRune lib b := by
  rcases h with h | ⟨ha, hb⟩ | ⟨hb, ha⟩
  · rw [h]
  · exact toLowerRune_upper lib a b ha hb
  · exact (toLowerRune_upper lib b a hb ha).symm

theorem map_toLowerRune_sameLetter (lib : Lib) {p s : List Char}
    (h : List.Forall₂ SameLetter p s) : p.map (toLowerRune lib) = s.map (toLowerRune lib) := by
  induction h with
  | nil => rfl
  | cons hab _ ih => simp [toLowerRune_sameLetter lib hab, ih]

theorem ToLower_caseVariant (lib : Lib) {p s : String} (h : CaseVariant p s) :
    ToLower lib p = ToLower lib s := by
  unfold ToLower
  rw [map_toLowerRune_sameLetter lib h]

/-! ### The registration write -/

theorem keys_distinct {w : Redis} {u t : String} {c : RedisCache} {w' : Redis}
    (hc : NewRedisCache w u t = ((some c, none), w')) :
    c.keyValidatorRegistration ≠ c.keyValidatorRegistrationTimestamp ∧
    c.keyKnownValidators ≠ c.keyValidatorRegistration ∧
    c.keyKnownValidators ≠ c.keyValidatorRegistrationTimestamp := by
  refine ⟨fun h => ?_, fun h => ?_, fun h => ?_⟩
  · exact absurd (key_injective hc hc LogicalMap.registration LogicalMap.registrationTimestamp h).2
      (by decide)
  · exact absurd (key_injective hc hc LogicalMap.knownValidators LogicalMap.registration h).2
      (by decide)
  · exact absurd
      (key_injective hc hc LogicalMap.knownValidators LogicalMap.registrationTimestamp h).2
      (by decide)

theorem hash_hset_self (db : Database) (k f v : String) :
    (db.hset k f v).hash k = (db.hash k).insert f v := by
  unfold Database.hset
  exact hash_insert_self _ _ _

theorem hash_hset_of_ne (db : Database) (k k' f v : String) (hne : k' ≠ k) :
    (db.hset k f v).hash k' = db.hash k' := by
  unfold Database.hset
  exact hash_insert_of_ne _ _ _ _ hne

theorem field_hset_self (db : Database) (k f v : String) :
    (db.hset k f v).field k f = some v := by
  unfold Database.field
  rw [hash_hset_self]
  exact field_insert_self _ _ _

theorem field_hset_of_ne_field (db : Database) (k f f' v : String) (hne : f' ≠ f) :
    (db.hset k f v).field k f' = db.field k f' := by
  unfold Database.field
  rw [hash_hset_self]
  exact field_insert_of_ne _ _ _ _ hne

theorem field_hset_of_ne_key (db : Database) (k k' f f' v : String) (hne : k' ≠ k) :
    (db.hset k f v).field k' f' = db.field k' f' := by
  unfold Database.field
  rw [hash_hset_of_ne _ _ _ _ _ hne]

theorem afterFailedWrite_db (w : Redis) (k f v : String) (fault : Fault) :
    (afterFailedWrite w k f v fault).db = if fault.applied then w.db.hset k f v else w.db := by
  unfold afterFailedWrite
  cases fault.applied <;> rfl

theorem afterFailedWrite_log (w : Redis) (k f v : String) (fault : Fault) :
    (afterFailedWrite w k f v fault).log = w.log ++ [Command.hset k f v] := by
  unfold afterFailedWrite
  cases fault.applied <;> rfl

theorem afterFailedWrite_hash_of_ne (w : Redis) (k k' f v : String) (fault : Fault)
    (hne : k' ≠ k) : (afterFailedWrite w k f v fault).db.hash k' = w.db.hash k' := by
  rw [afterFailedWrite_db]
  cases fault.applied
  · rfl
  · exact hash_hset_of_ne _ _ _ _ _ hne

/-- What a call of `SetValidatorRegistration` that returns no error has done. -/
theorem SetValidatorRegistration_ok {lib : Lib} {c : RedisCache} {w w' : Redis}
    {entry : SignedValidatorRegistration}
    (h : SetValidatorRegistration lib c w entry = (none, w')) :
    ∃ bs, lib.marshal entry = (bs, none) ∧
      w' = { db := (w.db.hset c.keyValidatorRegistrationTimestamp (registrationField lib entry)
                      (FormatUint entry.Message.Timestamp)).hset
                    c.keyValidatorRegistration (registrationField lib entry) bs,
             faults := w.faults.tail.tail,
             log := w.log ++
               [Command.hset c.keyValidatorRegistrationTimestamp (registrationField lib entry)
                  (FormatUint entry.Message.Timestamp),
                Command.hset c.keyValidatorRegistration (registrationField lib entry) bs] } := by
  unfold SetValidatorRegistration at h
  cases h1 : w.nextFault with
  | some msg =>
    rw [HSet_failed _ _ _ _ _ h1] at h
    simp at h
  | none =>
    rw [HSet_answered _ _ _ _ h1] at h
    simp only at h
    rcases hm : lib.marshal entry with ⟨bs, _ | e⟩
    · rw [hm] at h
      simp only at h
      refine ⟨bs, rfl, ?_⟩
      generalize hw1 : ({ db := _, faults := _, log := _ } : Redis) = w1 at h
      cases h2 : w1.nextFault with
      | some msg =>
        rw [HSet_failed _ _ _ _ _ h2] at h
        simp at h
      | none =>
        rw [HSet_answered _ _ _ _ h2] at h
        simp only [Prod.mk.injEq, true_and] at h
        subst h
        subst hw1
        simp [registrationField]
    · rw [hm] at h
      simp at h

/-! ### The two lookups of a registration -/

theorem HGet_db (w : Redis) (k f : String) : (HGet w k f).2.db = w.db := by
  unfold HGet
  cases w.nextFault with
  | some msg => rfl
  | none =>
    cases w.db.field k f with
    | none => rfl
    | some v => rfl

theorem HGet_present (w : Redis) (k f v : String) (hans : w.nextFault = none)
    (hf : w.db.field k f = some v) : HGet w k f = ((v, none), w.sent (Command.hget k f)) := by
  simp [HGet, hans, hf]

theorem HGet_absent (w : Redis) (k f : String) (hans : w.nextFault = none)
    (hf : w.db.field k f = none) :
    HGet w k f = (("", some Error.redisNil), w.sent (Command.hget k f)) := by
  simp [HGet, hans, hf]

theorem GetValidatorRegistration_db (lib : Lib) (c : RedisCache) (w : Redis) (p : String) :
    (GetValidatorRegistration lib c w p).2.db = w.db := by
  have h := HGet_db w c.keyValidatorRegistration (ToLower lib p)
  unfold GetValidatorRegistration
  rcases hg : HGet w c.keyValidatorRegistration (ToLower lib p) with ⟨⟨value, err⟩, w1⟩
  rw [hg] at h
  simp only
  split
  · exact h
  · split
    · exact h
    · exact h

theorem GetValidatorRegistrationTimestamp_db (lib : Lib) (c : RedisCache) (w : Redis)
    (p : String) : (GetValidatorRegistrationTimestamp lib c w p).2.db = w.db := by
  have h := HGet_db w c.keyValidatorRegistrationTimestamp (ToLower lib p)
  unfold GetValidatorRegistrationTimestamp
  rcases hg : HGet w c.keyValidatorRegistrationTimestamp (ToLower lib p) with ⟨res, w1⟩
  rw [hg] at h
  simp only
  split
  · exact h
  · exact h

theorem GetValidatorRegistration_present (lib : Lib) (c : RedisCache) (w : Redis)
    (p v : String) (hans : w.nextFault = none)
    (hf : w.db.field c.keyValidatorRegistration (ToLower lib p) = some v) :
    GetValidatorRegistration lib c w p =
      ((some (lib.unmarshal v).1, (lib.unmarshal v).2),
        w.sent (Command.hget c.keyValidatorRegistration (ToLower lib p))) := by
  unfold GetValidatorRegistration
  rw [HGet_present _ _ _ _ hans hf]
  simp

theorem GetValidatorRegistration_absent (lib : Lib) (c : RedisCache) (w : Redis)
    (p : String) (hans : w.nextFault = none)
    (hf : w.db.field c.keyValidatorRegistration (ToLower lib p) = none) :
    GetValidatorRegistration lib c w p =
      ((none, none), w.sent (Command.hget c.keyValidatorRegistration (ToLower lib p))) := by
  unfold GetValidatorRegistration
  rw [HGet_absent _ _ _ hans hf]
  simp

theorem GetValidatorRegistrationTimestamp_present (lib : Lib) (c : RedisCache) (w : Redis)
    (p : String) (u : Nat) (hans : w.nextFault = none)
    (hf : w.db.field c.keyValidatorRegistrationTimestamp (ToLower lib p) = some (FormatUint u)) :
    GetValidatorRegistrationTimestamp lib c w p =
      ((u % 2 ^ 64, none),
        w.sent (Command.hget c.keyValidatorRegistrationTimestamp (ToLower lib p))) := by
  unfold GetValidatorRegistrationTimestamp
  rw [HGet_present _ _ _ _ hans hf]
  simp [cmdUint64, ParseUint_FormatUint]

theorem GetValidatorRegistrationTimestamp_absent (lib : Lib) (c : RedisCache) (w : Redis)
    (p : String) (hans : w.nextFault = none)
    (hf : w.db.field c.keyValidatorRegistrationTimestamp (ToLower lib p) = none) :
    GetValidatorRegistrationTimestamp lib c w p =
      ((0, none), w.sent (Command.hget c.keyValidatorRegistrationTimestamp (ToLower lib p))) := by
  unfold GetValidatorRegistrationTimestamp
  rw [HGet_absent _ _ _ hans hf]
  simp [cmdUint64]

theorem SetValidatorRegistration_step1_failed (lib : Lib) (c : RedisCache) (w : Redis)
    (entry : SignedValidatorRegistration) (fault : Fault) (h : w.nextFault = some fault) :
    SetValidatorRegistration lib c w entry =
      (some (Error.store fault.msg),
        afterFailedWrite w c.keyValidatorRegistrationTimestamp (registrationField lib entry)
          (FormatUint entry.Message.Timestamp) fault) := by
  unfold SetValidatorRegistration
  rw [HSet_failed _ _ _ _ _ h]
  rfl

theorem SetValidatorRegistration_marshal_failed (lib : Lib) (c : RedisCache) (w : Redis)
    (entry : SignedValidatorRegistration) (bs : String) (e : Error) (h : w.nextFault = none)
    (hm : lib.marshal entry = (bs, some e)) :
    SetValidatorRegistration lib c w entry = (some e, afterTimestampWrite lib c w entry) := by
  unfold SetValidatorRegistration
  rw [HSet_answered _ _ _ _ h]
  simp only [hm]
  rfl

theorem SetValidatorRegistration_step2 (lib : Lib) (c : RedisCache) (w : Redis)
    (entry : SignedValidatorRegistration) (bs : String) (h : w.nextFault = none)
    (hm : lib.marshal entry = (bs, none)) :
    SetValidatorRegistration lib c w entry =
      HSet (afterTimestampWrite lib c w entry) c.keyValidatorRegistration
        (registrationField lib entry) bs := by
  unfold SetValidatorRegistration
  rw [HSet_answered _ _ _ _ h]
  simp only [hm]
  rfl

/-- The three ways in which a call returns an error. -/
theorem SetValidatorRegistration_error_cases {lib : Lib} {c : RedisCache} {w w' : Redis}
    {entry : SignedValidatorRegistration} {err : Error}
    (h : SetValidatorRegistration lib c w entry = (some err, w')) :
    (∃ fault, w.nextFault = some fault ∧ err = Error.store fault.msg ∧
      w' = afterFailedWrite w c.keyValidatorRegistrationTimestamp (registrationField lib entry)
        (FormatUint entry.Message.Timestamp) fault) ∨
    (w.nextFault = none ∧ (lib.marshal entry).2 = some err ∧
      w' = afterTimestampWrite lib c w entry) ∨
    (w.nextFault = none ∧ (lib.marshal entry).2 = none ∧
      ∃ fault, (afterTimestampWrite lib c w entry).nextFault = some fault ∧
        err = Error.store fault.msg ∧
        w' = afterFailedWrite (afterTimestampWrite lib c w entry) c.keyValidatorRegistration
          (registrationField lib entry) (lib.marshal entry).1 fault) := by
  cases h1 : w.nextFault with
  | some fault =>
    rw [SetValidatorRegistration_step1_failed lib c w entry fault h1] at h
    simp only [Prod.mk.injEq, Option.some.injEq] at h
    exact Or.inl ⟨fault, rfl, h.1.symm, h.2.symm⟩
  | none =>
    rcases hm : lib.marshal entry with ⟨bs, _ | e⟩
    · rw [SetValidatorRegistration_step2 lib c w entry bs h1 hm] at h
      cases h2 : (afterTimestampWrite lib c w entry).nextFault with
      | none =>
        rw [HSet_answered _ _ _ _ h2] at h
        simp at h
      | some fault =>
        rw [HSet_failed _ _ _ _ _ h2] at h
        simp only [Prod.mk.injEq, Option.some.injEq] at h
        exact Or.inr (Or.inr ⟨rfl, rfl, fault, rfl, h.1.symm, h.2.symm⟩)
    · rw [SetValidatorRegistration_marshal_failed lib c w entry bs e h1 hm] at h
      simp only [Prod.mk.injEq, Option.some.injEq] at h
      exact Or.inr (Or.inl ⟨rfl, by rw [h.1], h.2.symm⟩)

theorem afterTimestampWrite_payload (lib : Lib) (c : RedisCache) (w : Redis)
    (entry : SignedValidatorRegistration)
    (hne : c.keyValidatorRegistration ≠ c.keyValidatorRegistrationTimestamp) :
    (afterTimestampWrite lib c w entry).db.hash c.keyValidatorRegistration =
      w.db.hash c.keyValidatorRegistration :=
  hash_hset_of_ne _ _ _ _ _ hne

/-- A call that returns an error has left the payload hash as it was, unless the payload
write was carried out and reported as failed. -/
theorem SetValidatorRegistration_error_payload {lib : Lib} {c : RedisCache} {w w' : Redis}
    {entry : SignedValidatorRegistration} {err : Error}
    (hne : c.keyValidatorRegistration ≠ c.keyValidatorRegistrationTimestamp)
    (h : SetValidatorRegistration lib c w entry = (some err, w'))
    (hlost : ¬ PayloadWriteLost lib c w entry) :
    w'.db.hash c.keyValidatorRegistration = w.db.hash c.keyValidatorRegistration := by
  rcases SetValidatorRegistration_error_cases h with
    ⟨fault, -, -, hw⟩ | ⟨-, -, hw⟩ | ⟨h1, hm, fault, h2, -, hw⟩
  · rw [hw]
    exact afterFailedWrite_hash_of_ne _ _ _ _ _ _ hne
  · rw [hw]
    exact afterTimestampWrite_payload lib c w entry hne
  · have happ : fault.applied = false := by
      cases ha : fault.applied with
      | false => rfl
      | true => exact absurd ⟨h1, hm, fault, h2, ha⟩ hlost
    rw [hw, afterFailedWrite_db, happ]
    exact afterTimestampWrite_payload lib c w entry hne

/-- A call that returns an error has left the payload fields of the other pubkeys as
they were. -/
theorem SetValidatorRegistration_error_payload_other {lib : Lib} {c : RedisCache}
    {w w' : Redis} {entry : SignedValidatorRegistration} {err : Error}
    (hne : c.keyValidatorRegistration ≠ c.keyValidatorRegistrationTimestamp)
    (h : SetValidatorRegistration lib c w entry = (some err, w')) (f : String)
    (hf : f ≠ registrationField lib entry) :
    w'.db.field c.keyValidatorRegistration f = w.db.field c.keyValidatorRegistration f := by
  have hts : (afterTimestampWrite lib c w entry).db.field c.keyValidatorRegistration f =
      w.db.field c.keyValidatorRegistration f := by
    unfold Database.field
    rw [afterTimestampWrite_payload lib c w entry hne]
  rcases SetValidatorRegistration_error_cases h with
    ⟨fault, -, -, hw⟩ | ⟨-, -, hw⟩ | ⟨-, -, fault, -, -, hw⟩
  · rw [hw]
    unfold Database.field
    rw [afterFailedWrite_hash_of_ne _ _ _ _ _ _ hne]
  · rw [hw]
    exact hts
  · rw [hw, afterFailedWrite_db]
    cases fault.applied
    · exact hts
    · rw [if_pos rfl, field_hset_of_ne_field _ _ _ _ _ hf]
      exact hts

/-- A payload write that was carried out and reported as failed has set the field. -/
theorem SetValidatorRegistration_error_payload_lost {lib : Lib} {c : RedisCache}
    {w w' : Redis} {entry : SignedValidatorRegistration} {err : Error}
    (h : SetValidatorRegistration lib c w entry = (some err, w'))
    (hlost : PayloadWriteLost lib c w entry) :
    w'.db.field c.keyValidatorRegistration (registrationField lib entry) =
      some (lib.marshal entry).1 := by
  obtain ⟨h1, hm, fault, h2, ha⟩ := hlost
  rcases SetValidatorRegistration_error_cases h with
    ⟨fault', h1', -, -⟩ | ⟨-, hm', -⟩ | ⟨-, -, fault', h2', -, hw⟩
  · rw [h1] at h1'
    simp at h1'
  · rw [hm] at hm'
    simp at hm'
  · rw [h2] at h2'
    have hfe : fault = fault' := Option.some.inj h2'
    subst hfe
    rw [hw, afterFailedWrite_db, ha]
    exact field_hset_self _ _ _ _

/-! ### The batch write -/

theorem applyInOrder_cons (lib : Lib) (c : RedisCache) (w : Redis)
    (e : SignedValidatorRegistration) (es : List SignedValidatorRegistration) :
    applyInOrder lib c w (e :: es) =
      applyInOrder lib c (SetValidatorRegistration lib c w e).2 es := rfl

theorem SetValidatorRegistrations_append (lib : Lib) (c : RedisCache) (w : Redis)
    (pre rest : List SignedValidatorRegistration) (h : EachSucceeds lib c w pre) :
    SetValidatorRegistrations lib c w (pre ++ rest) =
      SetValidatorRegistrations lib c (applyInOrder lib c w pre) rest := by
  induction pre generalizing w with
  | nil => rfl
  | cons e es ih =>
    obtain ⟨h1, h2⟩ := h
    rw [List.cons_append, applyInOrder_cons]
    rw [SetValidatorRegistrations]
    rcases hs : SetValidatorRegistration lib c w e with ⟨_ | err, w1⟩
    · rw [hs] at h2
      exact ih w1 h2
    · rw [hs] at h1
      simp at h1

theorem SetValidatorRegistrations_all_ok (lib : Lib) (c : RedisCache) (w : Redis)
    (es : List SignedValidatorRegistration) (h : EachSucceeds lib c w es) :
    SetValidatorRegistrations lib c w es = (none, applyInOrder lib c w es) := by
  have := SetValidatorRegistrations_append lib c w es [] h
  rw [List.append_nil] at this
  rw [this]
  rfl

theorem SetValidatorRegistrations_head_failed (lib : Lib) (c : RedisCache) (w : Redis)
    (b : SignedValidatorRegistration) (post : List SignedValidatorRegistration) (e : Error)
    (h : (SetValidatorRegistration lib c w b).1 = some e) :
    SetValidatorRegistrations lib c w (b :: post) =
      (some e, (SetValidatorRegistration lib c w b).2) := by
  rw [SetValidatorRegistrations]
  rcases hs : SetValidatorRegistration lib c w b with ⟨_ | err, w1⟩
  · rw [hs] at h
    simp at h
  · rw [hs] at h
    simp only [Option.some.injEq] at h
    rw [h]

/-- A batch that returns no error has applied every entry. -/
theorem EachSucceeds_of_ok (lib : Lib) (c : RedisCache) (w w' : Redis)
    (es : List SignedValidatorRegistration)
    (h : SetValidatorRegistrations lib c w es = (none, w')) : EachSucceeds lib c w es := by
  induction es generalizing w with
  | nil => trivial
  | cons e es ih =>
    rw [SetValidatorRegistrations] at h
    rcases hs : SetValidatorRegistration lib c w e with ⟨_ | err, w1⟩
    · rw [hs] at h
      exact ⟨by rw [hs], by rw [hs]; exact ih w1 h⟩
    · rw [hs] at h
      simp at h

/-- The effect of a call that returns no error on the fields of the two hashes. -/
theorem SetValidatorRegistration_ok_fields {lib : Lib} {c : RedisCache} {w : Redis}
    {entry : SignedValidatorRegistration}
    (hne : c.keyValidatorRegistration ≠ c.keyValidatorRegistrationTimestamp)
    (h : (SetValidatorRegistration lib c w entry).1 = none) (f : String) :
    (lib.marshal entry).2 = none ∧
    (SetValidatorRegistration lib c w entry).2.db.field c.keyValidatorRegistration f =
      (if f = registrationField lib entry then some (lib.marshal entry).1
       else w.db.field c.keyValidatorRegistration f) ∧
    (SetValidatorRegistration lib c w entry).2.db.field c.keyValidatorRegistrationTimestamp f =
      (if f = registrationField lib entry then some (FormatUint entry.Message.Timestamp)
       else w.db.field c.keyValidatorRegistrationTimestamp f) ∧
    ∀ k, k ≠ c.keyValidatorRegistration → k ≠ c.keyValidatorRegistrationTimestamp →
      (SetValidatorRegistration lib c w entry).2.db.hash k = w.db.hash k := by
  have h' : SetValidatorRegistration lib c w entry =
      (none, (SetValidatorRegistration lib c w entry).2) := by
    rw [← h]
  obtain ⟨bs, hm, hw⟩ := SetValidatorRegistration_ok h'
  rw [hw, hm]
  refine ⟨rfl, ?_, ?_, ?_⟩
  · by_cases hf : f = registrationField lib entry
    · rw [if_pos hf, hf]
      exact field_hset_self _ _ _ _
    · rw [if_neg hf]
      show Database.field _ _ _ = _
      rw [field_hset_of_ne_field _ _ _ _ _ hf, field_hset_of_ne_key _ _ _ _ _ _ hne]
  · by_cases hf : f = registrationField lib entry
    · rw [if_pos hf, hf]
      show Database.field _ _ _ = _
      rw [field_hset_of_ne_key _ _ _ _ _ _ (Ne.symm hne)]
      exact field_hset_self _ _ _ _
    · rw [if_neg hf]
      show Database.field _ _ _ = _
      rw [field_hset_of_ne_key _ _ _ _ _ _ (Ne.symm hne), field_hset_of_ne_field _ _ _ _ _ hf]
  · intro k hk1 hk2
    show Database.hash _ _ = _
    rw [hash_hset_of_ne _ _ _ _ _ hk1, hash_hset_of_ne _ _ _ _ _ hk2]

theorem applyInOrder_payload_other (lib : Lib) (c : RedisCache) (w : Redis)
    (hne : c.keyValidatorRegistration ≠ c.keyValidatorRegistrationTimestamp)
    (es : List SignedValidatorRegistration) (h : EachSucceeds lib c w es) (f : String)
    (hf : ∀ e ∈ es, registrationField lib e ≠ f) :
    (applyInOrder lib c w es).db.field c.keyValidatorRegistration f =
      w.db.field c.keyValidatorRegistration f := by
  induction es generalizing w with
  | nil => rfl
  | cons e es ih =>
    obtain ⟨h1, h2⟩ := h
    rw [applyInOrder_cons, ih _ h2 (fun e' he' => hf e' (List.mem_cons_of_mem _ he'))]
    rw [(SetValidatorRegistration_ok_fields hne h1 f).2.1]
    rw [if_neg (fun hh => hf e (List.mem_cons_self _ _) hh.symm)]

theorem EachSucceeds_append (lib : Lib) (c : RedisCache) (w : Redis)
    (l1 l2 : List SignedValidatorRegistration) :
    EachSucceeds lib c w (l1 ++ l2) ↔
      EachSucceeds lib c w l1 ∧ EachSucceeds lib c (applyInOrder lib c w l1) l2 := by
  induction l1 generalizing w with
  | nil => simp [EachSucceeds, applyInOrder]
  | cons e es ih =>
    rw [List.cons_append, EachSucceeds, EachSucceeds, applyInOrder_cons, ih, and_assoc]

theorem applyInOrder_append (lib : Lib) (c : RedisCache) (w : Redis)
    (l1 l2 : List SignedValidatorRegistration) :
    applyInOrder lib c w (l1 ++ l2) = applyInOrder lib c (applyInOrder lib c w l1) l2 := by
  unfold applyInOrder
  rw [List.foldl_append]

/-! ### The snapshot of the known validators -/

theorem collectValidators_cons (k v : String) (rest : List (Sigma fun _ : String => String))
    (acc : AList (fun _ : String => Nat)) :
    collectValidators (⟨k, v⟩ :: rest) acc =
      collectValidators rest
        (match ParseUint v with
          | (proposerIndex, none) => acc.insert k proposerIndex
          | (_, some _) => acc) := rfl

theorem collectValidators_lookup (entries : List (Sigma fun _ : String => String))
    (hnd : entries.NodupKeys) (acc : AList (fun _ : String => Nat)) (f : String) :
    (collectValidators entries acc).lookup f =
      match List.dlookup f entries with
      | some v => if (ParseUint v).2 = none then some (ParseUint v).1 else acc.lookup f
      | none => acc.lookup f := by
  induction entries generalizing acc with
  | nil => rfl
  | cons e rest ih =>
    obtain ⟨k, v⟩ := e
    rw [List.nodupKeys_cons] at hnd
    obtain ⟨hk, hrest⟩ := hnd
    rw [collectValidators_cons, ih hrest]
    by_cases hf : f = k
    · subst hf
      rw [List.dlookup_cons_eq, List.dlookup_eq_none.mpr hk]
      rcases hp : ParseUint v with ⟨n, _ | err⟩
      · simp [hp]
      · simp [hp]
    · rw [List.dlookup_cons_ne _ _ hf]
      have hacc : (match ParseUint v with
          | (proposerIndex, none) => acc.insert k proposerIndex
          | (_, some _) => acc).lookup f = acc.lookup f := by
        rcases hp : ParseUint v with ⟨n, _ | err⟩
        · simp [AList.lookup_insert_ne hf]
        · simp
      rw [hacc]

/-- The snapshot holds a field exactly when its stored value parses, with the number
parsed. -/
theorem collectValidators_lookup_iff (h : Hash) (f : String) (n : Nat) :
    (collectValidators h.entries ∅).lookup f = some n ↔
      ∃ v, h.lookup f = some v ∧ ParseUint v = (n, none) := by
  rw [collectValidators_lookup h.entries h.nodupKeys ∅ f]
  show _ ↔ ∃ v, List.dlookup f h.entries = some v ∧ _
  cases hd : List.dlookup f h.entries with
  | none => simp
  | some v =>
    rcases hp : ParseUint v with ⟨m, _ | err⟩
    · simp [hp]
    · simp [hp]

theorem GetKnownValidators_answered (c : RedisCache) (w : Redis) (hans : w.nextFault = none) :
    GetKnownValidators c w =
      ((some (collectValidators (w.db.hash c.keyKnownValidators).entries ∅), none),
        w.sent (Command.hgetall c.keyKnownValidators)) := by
  simp [GetKnownValidators, HGetAll, hans]

/-! ### What `strconv.ParseUint` accepts -/

theorem parseUintLoop_ok (cs : List Char) (n m : Nat) (hn : n < 2 ^ 64)
    (h : parseUintLoop cs n = (m, none)) :
    (∀ c ∈ cs, IsDigit c) ∧ m = decimalValue cs n ∧ m < 2 ^ 64 := by
  induction cs generalizing n with
  | nil =>
    simp only [parseUintLoop, Prod.mk.injEq, and_true] at h
    subst h
    exact ⟨by simp, rfl, hn⟩
  | cons c cs ih =>
    unfold parseUintLoop at h
    by_cases hc : 48 ≤ c.toNat ∧ c.toNat ≤ 57
    · rw [if_pos hc] at h
      simp only at h
      by_cases h3 : n ≥ maxUint64 / 10 + 1
      · rw [if_pos h3] at h
        simp at h
      · rw [if_neg h3] at h
        by_cases h4 : (n * 10 % 2 ^ 64 + (c.toNat - 48)) % 2 ^ 64 < n * 10 % 2 ^ 64 ∨
            (n * 10 % 2 ^ 64 + (c.toNat - 48)) % 2 ^ 64 > maxUint64
        · rw [if_pos h4] at h
          simp at h
        · rw [if_neg h4] at h
          have hval : (n * 10 % 2 ^ 64 + (c.toNat - 48)) % 2 ^ 64 = n * 10 + (c.toNat - 48) := by
            norm_num [maxUint64] at h3 h4 ⊢
            omega
          rw [hval] at h
          have hlt : n * 10 + (c.toNat - 48) < 2 ^ 64 := by
            rw [← hval]
            exact Nat.mod_lt _ (by positivity)
          obtain ⟨hd, hm, hb⟩ := ih _ hlt h
          refine ⟨?_, ?_, hb⟩
          · intro c' hc'
            rcases List.mem_cons.mp hc' with h' | h'
            · exact h' ▸ hc
            · exact hd c' h'
          · rw [decimalValue_cons]
            exact hm
    · rw [if_neg hc] at h
      simp at h

/-- The texts that `strconv.ParseUint(s, 10, 64)` accepts: one or more decimal digits
that denote a number below `2^64`; that number is the result. -/
theorem ParseUint_ok_iff (s : String) (n : Nat) :
    ParseUint s = (n, none) ↔
      s.data ≠ [] ∧ (∀ c ∈ s.data, IsDigit c) ∧ decimalValue s.data 0 = n ∧
        n < 2 ^ 64 := by
  constructor
  · intro h
    unfold ParseUint at h
    by_cases he : s.data = []
    · rw [if_pos he] at h
      simp at h
    · rw [if_neg he] at h
      obtain ⟨hd, hm, hb⟩ := parseUintLoop_ok s.data 0 n (by positivity) h
      exact ⟨he, hd, hm.symm, hb⟩
  · rintro ⟨he, hd, hv, hb⟩
    unfold ParseUint
    rw [if_neg he, parseUintLoop_digits s.data 0 hd (by rw [hv]; exact hb), hv]

/-! ### Sequences of writes -/

theorem latest_append_singleton (lib : Lib) (regs : List SignedValidatorRegistration)
    (e : SignedValidatorRegistration) (f : String) :
    latest lib (regs ++ [e]) f =
      if registrationField lib e = f then some e else latest lib regs f := by
  unfold latest
  rw [List.foldl_append]
  rfl

theorem latest_some (lib : Lib) (regs : List SignedValidatorRegistration) (f : String)
    (r : SignedValidatorRegistration) (h : latest lib regs f = some r) :
    r ∈ regs ∧ registrationField lib r = f := by
  induction regs using List.reverseRecOn generalizing r with
  | nil => simp [latest] at h
  | append_singleton regs e ih =>
    rw [latest_append_singleton] at h
    by_cases he : registrationField lib e = f
    · rw [if_pos he] at h
      have : e = r := Option.some.inj h
      subst this
      exact ⟨by simp, he⟩
    · rw [if_neg he] at h
      obtain ⟨h1, h2⟩ := ih r h
      exact ⟨by simp [h1], h2⟩

theorem latest_isSome_iff (lib : Lib) (regs : List SignedValidatorRegistration) (f : String) :
    (latest lib regs f).isSome ↔ f ∈ regs.map (registrationField lib) := by
  induction regs using List.reverseRecOn with
  | nil => simp [latest]
  | append_singleton regs e ih =>
    rw [latest_append_singleton]
    by_cases he : registrationField lib e = f
    · rw [if_pos he]
      simp [he]
    · rw [if_neg he, ih]
      simp only [List.map_append, List.map_cons, List.map_nil, List.mem_append,
        List.mem_singleton]
      constructor
      · exact Or.inl
      · rintro (h | h)
        · exact h
        · exact absurd h.symm he

theorem Tracks_empty (lib : Lib) (c : RedisCache) (db : Database) (h : db = ∅) :
    Tracks lib c db [] := by
  subst h
  refine ⟨by simp, fun f => ⟨rfl, rfl⟩⟩

theorem Tracks_step {lib : Lib} {c : RedisCache} {w : Redis}
    {regs : List SignedValidatorRegistration} {e : SignedValidatorRegistration}
    (hne : c.keyValidatorRegistration ≠ c.keyValidatorRegistrationTimestamp)
    (ht : Tracks lib c w.db regs) (h : (SetValidatorRegistration lib c w e).1 = none) :
    Tracks lib c (SetValidatorRegistration lib c w e).2.db (regs ++ [e]) := by
  obtain ⟨hm, hf⟩ := ht
  constructor
  · intro r hr
    rcases List.mem_append.mp hr with h' | h'
    · exact hm r h'
    · rw [List.mem_singleton.mp h']
      exact (SetValidatorRegistration_ok_fields hne h "").1
  · intro f
    obtain ⟨-, hp, hts, -⟩ := SetValidatorRegistration_ok_fields hne h f
    rw [hp, hts, latest_append_singleton]
    by_cases he : registrationField lib e = f
    · rw [if_pos he.symm, if_pos he.symm, if_pos he]
      exact ⟨rfl, rfl⟩
    · rw [if_neg (Ne.symm he), if_neg (Ne.symm he), if_neg he]
      exact hf f

theorem Tracks_each {lib : Lib} {c : RedisCache}
    (hne : c.keyValidatorRegistration ≠ c.keyValidatorRegistrationTimestamp)
    (es : List SignedValidatorRegistration) (w : Redis)
    (regs : List SignedValidatorRegistration)
    (ht : Tracks lib c w.db regs) (h : EachSucceeds lib c w es) :
    Tracks lib c (applyInOrder lib c w es).db (regs ++ es) := by
  induction es generalizing w regs with
  | nil =>
    rw [List.append_nil]
    exact ht
  | cons e es ih =>
    obtain ⟨h1, h2⟩ := h
    have := ih _ (regs ++ [e]) (Tracks_step hne ht h1) h2
    rw [List.append_assoc] at this
    exact this

theorem HSet_hash_of_ne (w : Redis) (k k' f v : String) (hne : k' ≠ k) :
    (HSet w k f v).2.db.hash k' = w.db.hash k' := by
  cases hf : w.nextFault with
  | none =>
    rw [HSet_answered _ _ _ _ hf]
    exact hash_hset_of_ne _ _ _ _ _ hne
  | some fault =>
    rw [HSet_failed _ _ _ _ _ hf]
    exact afterFailedWrite_hash_of_ne _ _ _ _ _ _ hne

theorem Tracks_of_hashes {lib : Lib} {c : RedisCache} {db db' : Database}
    {regs : List SignedValidatorRegistration} (ht : Tracks lib c db regs)
    (h1 : db'.hash c.keyValidatorRegistrationTimestamp =
      db.hash c.keyValidatorRegistrationTimestamp)
    (h2 : db'.hash c.keyValidatorRegistration = db.hash c.keyValidatorRegistration) :
    Tracks lib c db' regs := by
  refine ⟨ht.1, fun f => ?_⟩
  unfold Database.field
  rw [h1, h2]
  exact ht.2 f

theorem afterCalls_cons (lib : Lib) (c : RedisCache) (w : Redis) (k : Call) (ks : List Call) :
    afterCalls lib c w (k :: ks) = afterCalls lib c (k.run lib c w).2 ks := rfl

theorem afterCalls_append (lib : Lib) (c : RedisCache) (w : Redis) (l1 l2 : List Call) :
    afterCalls lib c w (l1 ++ l2) = afterCalls lib c (afterCalls lib c w l1) l2 := by
  unfold afterCalls
  rw [List.foldl_append]

theorem AllSucceed_append (lib : Lib) (c : RedisCache) (w : Redis) (l1 l2 : List Call) :
    AllSucceed lib c w (l1 ++ l2) ↔
      AllSucceed lib c w l1 ∧ AllSucceed lib c (afterCalls lib c w l1) l2 := by
  induction l1 generalizing w with
  | nil => simp [AllSucceed, afterCalls]
  | cons k ks ih =>
    rw [List.cons_append, AllSucceed, AllSucceed, afterCalls_cons, ih, and_assoc]

theorem entriesOf_append (l1 l2 : List Call) :
    entriesOf (l1 ++ l2) = entriesOf l1 ++ entriesOf l2 := by
  induction l1 with
  | nil => rfl
  | cons k ks ih => rw [List.cons_append, entriesOf, entriesOf, ih, List.append_assoc]

theorem Tracks_call {lib : Lib} {c : RedisCache} {w0 : Redis} {uri tag : String} {w0' : Redis}
    (hc : NewRedisCache w0 uri tag = ((some c, none), w0'))
    (k : Call) (w : Redis) (regs : List SignedValidatorRegistration)
    (ht : Tracks lib c w.db regs) (h : (k.run lib c w).1 = none) :
    Tracks lib c (k.run lib c w).2.db (regs ++ k.entries) := by
  obtain ⟨hne, hk1, hk2⟩ := keys_distinct hc
  cases k with
  | setKnownValidator pk i =>
    simp only [Call.entries, List.append_nil]
    exact Tracks_of_hashes ht (HSet_hash_of_ne _ _ _ _ _ (Ne.symm hk2))
      (HSet_hash_of_ne _ _ _ _ _ (Ne.symm hk1))
  | setValidatorRegistration e => exact Tracks_step hne ht h
  | setValidatorRegistrations es =>
    have hrun : SetValidatorRegistrations lib c w es =
        (none, (SetValidatorRegistrations lib c w es).2) := by
      rw [← show (SetValidatorRegistrations lib c w es).1 = none from h]
    have heach := EachSucceeds_of_ok lib c w _ es hrun
    show Tracks lib c (SetValidatorRegistrations lib c w es).2.db (regs ++ es)
    rw [SetValidatorRegistrations_all_ok lib c w es heach]
    exact Tracks_each hne es w regs ht heach

theorem Tracks_calls {lib : Lib} {c : RedisCache} {w0 : Redis} {uri tag : String} {w0' : Redis}
    (hc : NewRedisCache w0 uri tag = ((some c, none), w0'))
    (calls : List Call) (w : Redis) (regs : List SignedValidatorRegistration)
    (ht : Tracks lib c w.db regs) (h : AllSucceed lib c w calls) :
    Tracks lib c (afterCalls lib c w calls).db (regs ++ entriesOf calls) := by
  induction calls generalizing w regs with
  | nil =>
    rw [entriesOf, List.append_nil]
    exact ht
  | cons k ks ih =>
    obtain ⟨h1, h2⟩ := h
    have := ih _ (regs ++ k.entries) (Tracks_call hc k w regs ht h1) h2
    rw [List.append_assoc] at this
    exact this

/-- The number of fields of the timestamp hash when it tracks `regs`. -/
theorem Tracks_count {lib : Lib} {c : RedisCache} {db : Database}
    {regs : List SignedValidatorRegistration} (ht : Tracks lib c db regs) :
    (db.hash c.keyValidatorRegistrationTimestamp).entries.length =
      (regs.map (registrationField lib)).dedup.length := by
  have hkeys : (db.hash c.keyValidatorRegistrationTimestamp).keys.toFinset =
      (regs.map (registrationField lib)).toFinset := by
    ext f
    rw [List.mem_toFinset, List.mem_toFinset, ← latest_isSome_iff, ← AList.mem_keys,
      ← AList.lookup_isSome]
    have := (ht.2 f).1
    unfold Database.field at this
    rw [this]
    cases latest lib regs f <;> simp
  have hlen : (db.hash c.keyValidatorRegistrationTimestamp).entries.length =
      (db.hash c.keyValidatorRegistrationTimestamp).keys.length := by
    simp [AList.keys, List.keys]
  rw [hlen, ← List.toFinset_card_of_nodup (AList.keys_nodup _), hkeys, List.card_toFinset]

theorem NumRegisteredValidators_answered (c : RedisCache) (w : Redis)
    (hans : w.nextFault = none) :
    NumRegisteredValidators c w =
      ((Int.ofNat (w.db.hash c.keyValidatorRegistrationTimestamp).entries.length, none),
        w.sent (Command.hlen c.keyValidatorRegistrationTimestamp)) := by
  simp [NumRegisteredValidators, HLen, hans]

theorem dedup_length_append_mem (l : List String) (x : String) (h : x ∈ l) :
    (l ++ [x]).dedup.length = l.dedup.length := by
  rw [← List.card_toFinset, ← List.card_toFinset]
  congr 1
  ext y
  simp only [List.toFinset_append, List.toFinset_cons, List.toFinset_nil, Finset.mem_union,
    List.mem_toFinset, Finset.mem_insert, Finset.not_mem_empty, or_false]
  constructor
  · rintro (hy | hy)
    · exact hy
    · exact hy ▸ h
  · exact Or.inl

/-! ### The fields of the known-validators hash -/

theorem toLowerRune_not_upper (lib : Lib)
    (hlib : ∀ ch : Char, 128 ≤ ch.toNat → ¬ IsUpperASCII (lib.unicodeToLower ch))
    (ch : Char) : ¬ IsUpperASCII (toLowerRune lib ch) := by
  unfold toLowerRune
  by_cases h1 : ch.toNat < 128
  · rw [if_pos h1]
    by_cases h2 : 65 ≤ ch.toNat ∧ ch.toNat ≤ 90
    · rw [if_pos h2]
      unfold IsUpperASCII
      rw [toNat_ofNat_small _ (by omega)]
      omega
    · rw [if_neg h2]
      exact h2
  · rw [if_neg h1]
    exact hlib ch (by omega)

theorem ToLower_no_upper (lib : Lib)
    (hlib : ∀ ch : Char, 128 ≤ ch.toNat → ¬ IsUpperASCII (lib.unicodeToLower ch))
    (q : String) : ∀ ch ∈ (ToLower lib q).data, ¬ IsUpperASCII ch := by
  intro ch hch
  unfold ToLower at hch
  obtain ⟨a, -, ha⟩ := List.mem_map.mp hch
  rw [← ha]
  exact toLowerRune_not_upper lib hlib a

theorem SetValidatorRegistration_hash_of_ne (lib : Lib) (c : RedisCache) (w : Redis)
    (e : SignedValidatorRegistration) (k : String)
    (h1 : k ≠ c.keyValidatorRegistrationTimestamp) (h2 : k ≠ c.keyValidatorRegistration) :
    (SetValidatorRegistration lib c w e).2.db.hash k = w.db.hash k := by
  unfold SetValidatorRegistration
  have ha := HSet_hash_of_ne w c.keyValidatorRegistrationTimestamp k
    (ToLower lib (PubkeyHex lib e.Message.Pubkey)) (FormatUint e.Message.Timestamp) h1
  rcases hs : HSet w c.keyValidatorRegistrationTimestamp
      (ToLower lib (PubkeyHex lib e.Message.Pubkey)) (FormatUint e.Message.Timestamp)
    with ⟨_ | err, w1⟩
  · rw [hs] at ha
    simp only at ha ⊢
    rcases hm : lib.marshal e with ⟨bs, _ | err⟩
    · simp only
      rw [HSet_hash_of_ne _ _ _ _ _ h2]
      exact ha
    · exact ha
  · rw [hs] at ha
    exact ha

theorem SetValidatorRegistrations_hash_of_ne (lib : Lib) (c : RedisCache) (w : Redis)
    (es : List SignedValidatorRegistration) (k : String)
    (h1 : k ≠ c.keyValidatorRegistrationTimestamp) (h2 : k ≠ c.keyValidatorRegistration) :
    (SetValidatorRegistrations lib c w es).2.db.hash k = w.db.hash k := by
  induction es generalizing w with
  | nil => rfl
  | cons e es ih =>
    rw [SetValidatorRegistrations]
    have ha := SetValidatorRegistration_hash_of_ne lib c w e k h1 h2
    rcases hs : SetValidatorRegistration lib c w e with ⟨_ | err, w1⟩
    · rw [hs] at ha
      simp only
      rw [ih w1]
      exact ha
    · rw [hs] at ha
      exact ha

theorem LowerFields_SetKnownValidator (lib : Lib) (c : RedisCache) (w : Redis) (pk : String)
    (i : Nat) (h : LowerFields lib c w.db) :
    LowerFields lib c (SetKnownValidator lib c w pk i).2.db := by
  unfold SetKnownValidator PubkeyHexToLowerStr
  have hset : LowerFields lib c
      (w.db.hset c.keyKnownValidators (ToLower lib pk) (FormatUint i)) := by
    intro f hsome
    by_cases hfe : f = ToLower lib pk
    · exact ⟨pk, hfe⟩
    · apply h f
      have : (w.db.hset c.keyKnownValidators (ToLower lib pk) (FormatUint i)).field
          c.keyKnownValidators f = w.db.field c.keyKnownValidators f :=
        field_hset_of_ne_field _ _ _ _ _ hfe
      rw [← this]
      exact hsome
  cases hf : w.nextFault with
  | some fault =>
    rw [HSet_failed _ _ _ _ _ hf]
    show LowerFields lib c (afterFailedWrite _ _ _ _ _).db
    rw [afterFailedWrite_db]
    cases fault.applied
    · exact h
    · exact hset
  | none =>
    rw [HSet_answered _ _ _ _ hf]
    exact hset

theorem LowerFields_calls {lib : Lib} {c : RedisCache} {w0 : Redis} {uri tag : String}
    {w0' : Redis} (hc : NewRedisCache w0 uri tag = ((some c, none), w0'))
    (calls : List Call) (w : Redis) (h : LowerFields lib c w.db) :
    LowerFields lib c (afterCalls lib c w calls).db := by
  obtain ⟨-, hk1, hk2⟩ := keys_distinct hc
  induction calls generalizing w with
  | nil => exact h
  | cons k ks ih =>
    rw [afterCalls_cons]
    apply ih
    cases k with
    | setKnownValidator pk i => exact LowerFields_SetKnownValidator lib c w pk i h
    | setValidatorRegistration e =>
      intro f hf
      apply h f
      unfold Database.field at hf ⊢
      rw [← SetValidatorRegistration_hash_of_ne lib c w e _ hk2 hk1]
      exact hf
    | setValidatorRegistrations es =>
      intro f hf
      apply h f
      unfold Database.field at hf ⊢
      rw [← SetValidatorRegistrations_hash_of_ne lib c w es _ hk2 hk1]
      exact hf

/-! ## The properties of the cache -/

/-- C1: after `SetValidatorRegistration(r)` has returned no error, on whatever the store
held before, a lookup under any letter case `p` of the pubkey text of `r` returns `r` and no
error, and the timestamp lookup returns `r.Message.Timestamp` and no error. Here `r` goes
through JSON without loss, its timestamp is a `uint64`, the cache was built by
`NewRedisCache`, and the lookups run on the stored hashes as the write left them, with the
server answering. -/
theorem set_then_get_registration (lib : Lib) (w0 : Redis) (uri tag : String) (c : RedisCache)
    (w0' : Redis) (hc : NewRedisCache w0 uri tag = ((some c, none), w0'))
    (w w1 : Redis) (r : SignedValidatorRegistration)
    (hr : Lossless lib r) (hts : r.Message.Timestamp < 2 ^ 64)
    (hset : SetValidatorRegistration lib c w r = (none, w1))
    (p : String) (hp : CaseVariant p (PubkeyHex lib r.Message.Pubkey))
    (w2 : Redis) (hdb : w2.db = w1.db) (hans : w2.nextFault = none) :
    (GetValidatorRegistration lib c w2 p).1 = (some r, none) ∧
    (GetValidatorRegistrationTimestamp lib c w2 p).1 = (r.Message.Timestamp, none) := by
  obtain ⟨hne, -, -⟩ := keys_distinct hc
  obtain ⟨bs, hm, hw1⟩ := SetValidatorRegistration_ok hset
  obtain ⟨bs', hm', hu⟩ := hr
  have hbs : bs' = bs := by
    rw [hm] at hm'
    exact (congrArg Prod.fst hm').symm
  subst hbs
  have hfield : ToLower lib p = registrationField lib r := ToLower_caseVariant lib hp
  have hdb2 : w2.db = (w.db.hset c.keyValidatorRegistrationTimestamp (registrationField lib r)
      (FormatUint r.Message.Timestamp)).hset c.keyValidatorRegistration
        (registrationField lib r) bs' := by
    rw [hdb, hw1]
  constructor
  · have hf : w2.db.field c.keyValidatorRegistration (ToLower lib p) = some bs' := by
      rw [hdb2, hfield]
      exact field_hset_self _ _ _ _
    rw [GetValidatorRegistration_present lib c w2 p bs' hans hf, hu]
  · have hf : w2.db.field c.keyValidatorRegistrationTimestamp (ToLower lib p) =
        some (FormatUint r.Message.Timestamp) := by
      rw [hdb2, hfield, field_hset_of_ne_key _ _ _ _ _ _ (Ne.symm hne)]
      exact field_hset_self _ _ _ _
    rw [GetValidatorRegistrationTimestamp_present lib c w2 p _ hans hf, Nat.mod_eq_of_lt hts]

/-- The first validator registers again with an older timestamp and is then looked up
under the upper-case text of its key. -/
theorem set_then_get_registration_witness :
    Lossless jsonLib validatorOne ∧
    SetValidatorRegistration jsonLib mainnetCache
        (SetValidatorRegistration jsonLib mainnetCache Redis.empty validatorOneLater).2
        validatorOne =
      (none, (SetValidatorRegistrations jsonLib mainnetCache Redis.empty
        [validatorOneLater, validatorOne]).2) ∧
    CaseVariant validatorOneUpper (PubkeyHex jsonLib validatorOne.Message.Pubkey) ∧
    (GetValidatorRegistration jsonLib mainnetCache
      (SetValidatorRegistrations jsonLib mainnetCache Redis.empty
        [validatorOneLater, validatorOne]).2 validatorOneUpper).1 = (some validatorOne, none) ∧
    (GetValidatorRegistrationTimestamp jsonLib mainnetCache
      (SetValidatorRegistrations jsonLib mainnetCache Redis.empty
        [validatorOneLater, validatorOne]).2 validatorOneUpper).1 = (1660000000, none) :=
  have hr : Lossless jsonLib validatorOne := ⟨jsonMarshal validatorOne, rfl, by decide⟩
  have hset : SetValidatorRegistration jsonLib mainnetCache
        (SetValidatorRegistration jsonLib mainnetCache Redis.empty validatorOneLater).2
        validatorOne =
      (none, (SetValidatorRegistrations jsonLib mainnetCache Redis.empty
        [validatorOneLater, validatorOne]).2) := rfl
  have hp : CaseVariant validatorOneUpper (PubkeyHex jsonLib validatorOne.Message.Pubkey) := by
    decide
  have h := set_then_get_registration jsonLib Redis.empty "localhost:6379" "mainnet"
    mainnetCache (Redis.empty.sent Command.ping) rfl _ _ validatorOne hr (by decide) hset
    validatorOneUpper hp _ rfl (by decide)
  ⟨hr, hset, hp, h.1, h.2⟩

/-- C2, as the code has it: when `SetValidatorRegistration`, applied one by one, returns
no error on every element of `pre` and the error `e` on `b`, then
`SetValidatorRegistrations(pre ++ [b] ++ post)` returns `e` and leaves the connection as the
call on `b` left it (nothing is sent for `post`). Every `a` of `pre` that is the last of
`pre` with its pubkey (and goes through JSON without loss) is what a lookup of its pubkey
then returns, unless `b` carries the same pubkey and the server has carried out the payload
write of `b` although the client reports it as failed: then the lookup returns what the
JSON text of `b` decodes to. When the calls return no error on every entry, the batch
returns no error and leaves the connection that the calls one by one leave. -/
theorem SetValidatorRegistrations_first_error (lib : Lib) (w0 : Redis) (uri tag : String)
    (c : RedisCache) (w0' : Redis) (hc : NewRedisCache w0 uri tag = ((some c, none), w0'))
    (w : Redis) :
    (∀ (pre post : List SignedValidatorRegistration) (b : SignedValidatorRegistration)
        (e : Error),
      EachSucceeds lib c w pre →
      (SetValidatorRegistration lib c (applyInOrder lib c w pre) b).1 = some e →
      SetValidatorRegistrations lib c w (pre ++ [b] ++ post) =
        (some e, (SetValidatorRegistration lib c (applyInOrder lib c w pre) b).2) ∧
      ∀ (l1 l2 : List SignedValidatorRegistration) (a : SignedValidatorRegistration),
        pre = l1 ++ a :: l2 →
        (∀ a' ∈ l2, registrationField lib a' ≠ registrationField lib a) →
        Lossless lib a →
        ∀ w2 : Redis,
          w2.db = (SetValidatorRegistrations lib c w (pre ++ [b] ++ post)).2.db →
          w2.nextFault = none →
          (¬ (PayloadWriteLost lib c (applyInOrder lib c w pre) b ∧
              registrationField lib b = registrationField lib a) →
            (GetValidatorRegistration lib c w2 (PubkeyHex lib a.Message.Pubkey)).1 =
              (some a, none)) ∧
          (PayloadWriteLost lib c (applyInOrder lib c w pre) b →
            registrationField lib b = registrationField lib a →
            (GetValidatorRegistration lib c w2 (PubkeyHex lib a.Message.Pubkey)).1 =
              (some (lib.unmarshal (lib.marshal b).1).1, (lib.unmarshal (lib.marshal b).1).2))) ∧
    (∀ entries : List SignedValidatorRegistration,
      EachSucceeds lib c w entries →
      SetValidatorRegistrations lib c w entries = (none, applyInOrder lib c w entries)) := by
  obtain ⟨hne, -, -⟩ := keys_distinct hc
  refine ⟨?_, fun entries h => SetValidatorRegistrations_all_ok lib c w entries h⟩
  intro pre post b e hpre hb
  have hrun : SetValidatorRegistrations lib c w (pre ++ [b] ++ post) =
      (some e, (SetValidatorRegistration lib c (applyInOrder lib c w pre) b).2) := by
    rw [List.append_assoc, SetValidatorRegistrations_append lib c w pre _ hpre]
    exact SetValidatorRegistrations_head_failed lib c _ b post e hb
  refine ⟨hrun, ?_⟩
  intro l1 l2 a hsplit hlast hlossless w2 hdb hans
  obtain ⟨bs, hm, hu⟩ := hlossless
  rw [hrun] at hdb
  have hb' : SetValidatorRegistration lib c (applyInOrder lib c w pre) b =
      (some e, (SetValidatorRegistration lib c (applyInOrder lib c w pre) b).2) := by
    rw [← hb]
  have hbefore : (applyInOrder lib c w pre).db.field c.keyValidatorRegistration
      (registrationField lib a) = some bs := by
    subst hsplit
    obtain ⟨-, h2⟩ := (EachSucceeds_append lib c w l1 (a :: l2)).mp hpre
    obtain ⟨ha, hl2⟩ := h2
    rw [applyInOrder_append, applyInOrder_cons,
      applyInOrder_payload_other lib c _ hne l2 hl2 _ hlast,
      (SetValidatorRegistration_ok_fields hne ha _).2.1, if_pos rfl, hm]
  constructor
  · intro hnot
    have hf : w2.db.field c.keyValidatorRegistration
        (ToLower lib (PubkeyHex lib a.Message.Pubkey)) = some bs := by
      rw [hdb]
      show Database.field _ _ (registrationField lib a) = _
      by_cases hlost : PayloadWriteLost lib c (applyInOrder lib c w pre) b
      · have hfield : registrationField lib a ≠ registrationField lib b :=
          fun heq => hnot ⟨hlost, heq.symm⟩
        rw [SetValidatorRegistration_error_payload_other hne hb' _ hfield]
        exact hbefore
      · unfold Database.field
        rw [SetValidatorRegistration_error_payload hne hb' hlost]
        exact hbefore
    rw [GetValidatorRegistration_present lib c w2 _ bs hans hf, hu]
  · intro hlost hsame
    have hf : w2.db.field c.keyValidatorRegistration
        (ToLower lib (PubkeyHex lib a.Message.Pubkey)) = some (lib.marshal b).1 := by
      rw [hdb]
      show Database.field _ _ (registrationField lib a) = _
      rw [← hsame]
      exact SetValidatorRegistration_error_payload_lost hb' hlost
    rw [GetValidatorRegistration_present lib c w2 _ _ hans hf]

/-- The batch of the first validator, its later registration and the second validator, on
a connection that fails at the fourth command, the payload write of the second entry,
which the server has not carried out. -/
theorem SetValidatorRegistrations_first_error_witness :
    EachSucceeds jsonLib mainnetCache flakyConnection [validatorOne] ∧
    (SetValidatorRegistration jsonLib mainnetCache
      (applyInOrder jsonLib mainnetCache flakyConnection [validatorOne]) validatorOneLater).1 =
      some (Error.store "i/o timeout") ∧
    (SetValidatorRegistrations jsonLib mainnetCache flakyConnection
      ([validatorOne] ++ [validatorOneLater] ++ [validatorTwo])).1 =
      some (Error.store "i/o timeout") ∧
    (GetValidatorRegistration jsonLib mainnetCache
      { (SetValidatorRegistrations jsonLib mainnetCache flakyConnection
          ([validatorOne] ++ [validatorOneLater] ++ [validatorTwo])).2 with faults := [] }
      (PubkeyHex jsonLib validatorOne.Message.Pubkey)).1 = (some validatorOne, none) :=
  have hpre : EachSucceeds jsonLib mainnetCache flakyConnection [validatorOne] :=
    ⟨by decide, trivial⟩
  have hb : (SetValidatorRegistration jsonLib mainnetCache
      (applyInOrder jsonLib mainnetCache flakyConnection [validatorOne]) validatorOneLater).1 =
      some (Error.store "i/o timeout") := by decide
  have hkept : ¬ (PayloadWriteLost jsonLib mainnetCache
      (applyInOrder jsonLib mainnetCache flakyConnection [validatorOne]) validatorOneLater ∧
      registrationField jsonLib validatorOneLater = registrationField jsonLib validatorOne) :=
    fun hlost =>
      match hlost.1 with
      | ⟨_, _, fault, hf, ha⟩ =>
        have hfe : fault = { msg := "i/o timeout", applied := false } :=
          (Option.some.inj hf).symm
        absurd (hfe ▸ ha) (by decide)
  have h := (SetValidatorRegistrations_first_error jsonLib Redis.empty "localhost:6379"
    "mainnet" mainnetCache (Redis.empty.sent Command.ping) rfl flakyConnection).1
    [validatorOne] [validatorTwo] validatorOneLater _ hpre hb
  ⟨hpre, hb, congrArg Prod.fst h.1,
    (h.2 [] [] validatorOne rfl (fun _ ha => absurd ha (List.not_mem_nil _))
      ⟨jsonMarshal validatorOne, rfl, by decide⟩ _ rfl rfl).1 hkept⟩

/-- The claim C2 as it is worded fails on a reply that is lost. In the batch of the
first validator, its later registration and the second validator, the call on the first
entry returns no error, the call on the second returns an error at its payload write,
the first entry is the last of `pre` with its pubkey, and the lookup of its pubkey
afterwards returns the second entry. -/
theorem SetValidatorRegistrations_first_error_counterexample :
    EachSucceeds jsonLib mainnetCache lostReplyConnection [validatorOne] ∧
    (SetValidatorRegistration jsonLib mainnetCache
      (applyInOrder jsonLib mainnetCache lostReplyConnection [validatorOne])
      validatorOneLater).1 = some (Error.store "i/o timeout") ∧
    (SetValidatorRegistrations jsonLib mainnetCache lostReplyConnection
      ([validatorOne] ++ [validatorOneLater] ++ [validatorTwo])).1 =
      some (Error.store "i/o timeout") ∧
    Lossless jsonLib validatorOne ∧
    (GetValidatorRegistration jsonLib mainnetCache
      { (SetValidatorRegistrations jsonLib mainnetCache lostReplyConnection
          ([validatorOne] ++ [validatorOneLater] ++ [validatorTwo])).2 with faults := [] }
      (PubkeyHex jsonLib validatorOne.Message.Pubkey)).1 = (some validatorOneLater, none) ∧
    (GetValidatorRegistration jsonLib mainnetCache
      { (SetValidatorRegistrations jsonLib mainnetCache lostReplyConnection
          ([validatorOne] ++ [validatorOneLater] ++ [validatorTwo])).2 with faults := [] }
      (PubkeyHex jsonLib validatorOne.Message.Pubkey)).1 ≠ (some validatorOne, none) :=
  ⟨⟨by decide, trivial⟩, by decide, by decide, ⟨jsonMarshal validatorOne, rfl, by decide⟩,
    by decide, by decide⟩

/-- C3: from an empty store, after writes through the cache that all returned no error
and whose registrations carry `n` different lower-case pubkey texts, `NumRegisteredValidators`
returns `n` and no error (the server answering the `HLEN`); and after one more successful
registration of a pubkey that is already among them it still returns `n`. -/
theorem NumRegisteredValidators_count (lib : Lib) (w0 : Redis) (uri tag : String)
    (c : RedisCache) (w0' : Redis) (hc : NewRedisCache w0 uri tag = ((some c, none), w0'))
    (w : Redis) (hw : w.db = ∅) (calls : List Call) (hok : AllSucceed lib c w calls)
    (n : Nat) (hn : ((entriesOf calls).map (registrationField lib)).dedup.length = n)
    (w2 : Redis) (hdb : w2.db = (afterCalls lib c w calls).db) (hans : w2.nextFault = none) :
    (NumRegisteredValidators c w2).1 = (Int.ofNat n, none) ∧
    ∀ e : SignedValidatorRegistration,
      registrationField lib e ∈ (entriesOf calls).map (registrationField lib) →
      (SetValidatorRegistration lib c w2 e).1 = none →
      ∀ w3 : Redis, w3.db = (SetValidatorRegistration lib c w2 e).2.db → w3.nextFault = none →
        (NumRegisteredValidators c w3).1 = (Int.ofNat n, none) := by
  obtain ⟨hne, -, -⟩ := keys_distinct hc
  have ht : Tracks lib c w2.db (entriesOf calls) := by
    have := Tracks_calls hc calls w [] (Tracks_empty lib c w.db hw) hok
    rw [List.nil_append] at this
    rw [hdb]
    exact this
  constructor
  · rw [NumRegisteredValidators_answered c w2 hans, Tracks_count ht, hn]
  · intro e he hset w3 hdb3 hans3
    have ht3 : Tracks lib c w3.db (entriesOf calls ++ [e]) := by
      rw [hdb3]
      exact Tracks_step hne ht hset
    rw [NumRegisteredValidators_answered c w3 hans3, Tracks_count ht3]
    have : ((entriesOf calls ++ [e]).map (registrationField lib)).dedup.length = n := by
      rw [← hn, List.map_append, List.map_cons, List.map_nil]
      exact dedup_length_append_mem _ _ he
    rw [this]

/-- Three writes that carry two validators, one of them twice. -/
theorem NumRegisteredValidators_count_witness :
    AllSucceed jsonLib mainnetCache Redis.empty threeWrites ∧
    ((entriesOf threeWrites).map (registrationField jsonLib)).dedup.length = 2 ∧
    (NumRegisteredValidators mainnetCache
      (afterCalls jsonLib mainnetCache Redis.empty threeWrites)).1 = (2, none) :=
  have hok : AllSucceed jsonLib mainnetCache Redis.empty threeWrites :=
    ⟨by decide, by decide, by decide, trivial⟩
  have hn : ((entriesOf threeWrites).map (registrationField jsonLib)).dedup.length = 2 := by
    decide
  ⟨hok, hn,
    (NumRegisteredValidators_count jsonLib Redis.empty "localhost:6379" "mainnet" mainnetCache
      (Redis.empty.sent Command.ping) rfl Redis.empty rfl threeWrites hok 2 hn
      (afterCalls jsonLib mainnetCache Redis.empty threeWrites) rfl (by decide)).1⟩

/-- C4: when the server answers the `HGETALL`, `GetKnownValidators` returns no error and a
map that holds a field `f` with the number `n` exactly when the stored value of `f` is
accepted by `strconv.ParseUint(v, 10, 64)` with the result `n`, that is when the value is
one or more decimal digits denoting the number `n` below `2^64`; every other field is
left out. -/
theorem GetKnownValidators_snapshot (c : RedisCache) (w : Redis) (hans : w.nextFault = none) :
    ∃ m, (GetKnownValidators c w).1 = (some m, none) ∧
      (∀ f n, m.lookup f = some n ↔
        ∃ v, w.db.field c.keyKnownValidators f = some v ∧ ParseUint v = (n, none)) ∧
      (∀ f n, m.lookup f = some n ↔
        ∃ v, w.db.field c.keyKnownValidators f = some v ∧ v.data ≠ [] ∧
          (∀ ch ∈ v.data, IsDigit ch) ∧ decimalValue v.data 0 = n ∧ n < 2 ^ 64) ∧
      (∀ f, m.lookup f = none ↔
        ∀ v, w.db.field c.keyKnownValidators f = some v → (ParseUint v).2 ≠ none) := by
  refine ⟨collectValidators (w.db.hash c.keyKnownValidators).entries ∅, ?_, ?_, ?_, ?_⟩
  · rw [GetKnownValidators_answered c w hans]
  · intro f n
    exact collectValidators_lookup_iff _ f n
  · intro f n
    rw [collectValidators_lookup_iff]
    constructor
    · rintro ⟨v, hv, hp⟩
      exact ⟨v, hv, (ParseUint_ok_iff v n).mp hp⟩
    · rintro ⟨v, hv, hp⟩
      exact ⟨v, hv, (ParseUint_ok_iff v n).mpr hp⟩
  · intro f
    constructor
    · intro hnone v hv hp
      have : (collectValidators (w.db.hash c.keyKnownValidators).entries ∅).lookup f =
          some (ParseUint v).1 :=
        (collectValidators_lookup_iff _ f _).mpr ⟨v, hv, by rw [← hp]⟩
      rw [hnone] at this
      simp at this
    · intro hall
      cases hl : (collectValidators (w.db.hash c.keyKnownValidators).entries ∅).lookup f with
      | none => rfl
      | some n =>
        obtain ⟨v, hv, hp⟩ := (collectValidators_lookup_iff _ f n).mp hl
        exact absurd (by rw [hp]) (hall v hv)

/-- A hash with the values `7`, `seven` and `18446744073709551616`: the snapshot holds
the first field only. -/
theorem GetKnownValidators_snapshot_witness :
    storeWithMalformed.nextFault = none ∧
    ∃ m, (GetKnownValidators mainnetCache storeWithMalformed).1 = (some m, none) ∧
      m.lookup "0xaa" = some 7 ∧ m.lookup "0xbb" = none ∧ m.lookup "0xcc" = none :=
  have hans : storeWithMalformed.nextFault = none := by decide
  match GetKnownValidators_snapshot mainnetCache storeWithMalformed hans with
  | ⟨m, hm, h1, _, h3⟩ =>
    ⟨hans, m, hm, (h1 "0xaa" 7).mpr ⟨"7", by decide, by decide⟩,
      (h3 "0xbb").mpr (fun v hv => by
        have : v = "seven" := by
          have h' : storeWithMalformed.db.field mainnetCache.keyKnownValidators "0xbb" =
            some "seven" := by decide
          rw [h'] at hv
          exact (Option.some.inj hv).symm
        subst this
        decide),
      (h3 "0xcc").mpr (fun v hv => by
        have : v = "18446744073709551616" := by
          have h' : storeWithMalformed.db.field mainnetCache.keyKnownValidators "0xcc" =
            some "18446744073709551616" := by decide
          rw [h'] at hv
          exact (Option.some.inj hv).symm
        subst this
        decide)⟩

/-- C5: on a store written only through the cache from the empty one, after
`SetKnownValidator(pk, i)` has returned no error for a `uint64` index `i`,
`GetKnownValidators` (the server answering) returns a map that holds the lower-case form
of `pk` with the value `i`; and when `pk` has a letter `A`..`Z`, `pk` as it was given is no
key of the map (the Unicode case table, asked about the runes from `0x80` upwards, yielding
no letter `A`..`Z`). -/
theorem SetKnownValidator_then_snapshot (lib : Lib) (w0 : Redis) (uri tag : String)
    (c : RedisCache) (w0' : Redis) (hc : NewRedisCache w0 uri tag = ((some c, none), w0'))
    (w : Redis) (hw : w.db = ∅) (calls : List Call) (pk : String) (i : Nat)
    (hi : i < 2 ^ 64)
    (hset : (SetKnownValidator lib c (afterCalls lib c w calls) pk i).1 = none)
    (w2 : Redis)
    (hdb : w2.db = (SetKnownValidator lib c (afterCalls lib c w calls) pk i).2.db)
    (hans : w2.nextFault = none) :
    ∃ m, (GetKnownValidators c w2).1 = (some m, none) ∧
      m.lookup (ToLower lib pk) = some i ∧
      ((∃ ch ∈ pk.data, IsUpperASCII ch) →
        (∀ ch : Char, 128 ≤ ch.toNat → ¬ IsUpperASCII (lib.unicodeToLower ch)) →
        m.lookup pk = none) := by
  have hlow0 : LowerFields lib c w.db := by
    intro f hf
    rw [hw] at hf
    simp [Database.field, Database.hash] at hf
  have hlow : LowerFields lib c w2.db := by
    rw [hdb]
    exact LowerFields_SetKnownValidator lib c _ pk i (LowerFields_calls hc calls w hlow0)
  have hfield : w2.db.field c.keyKnownValidators (ToLower lib pk) = some (FormatUint i) := by
    rw [hdb]
    unfold SetKnownValidator PubkeyHexToLowerStr at hset ⊢
    rw [HSet_answered _ _ _ _ ((HSet_ok_iff _ _ _ _).mp hset)]
    exact field_hset_self _ _ _ _
  refine ⟨collectValidators (w2.db.hash c.keyKnownValidators).entries ∅, ?_, ?_, ?_⟩
  · rw [GetKnownValidators_answered c w2 hans]
  · rw [collectValidators_lookup_iff]
    refine ⟨FormatUint i, hfield, ?_⟩
    rw [ParseUint_FormatUint, Nat.mod_eq_of_lt hi]
  · rintro ⟨ch, hch, hup⟩ hlib
    cases hl : (collectValidators (w2.db.hash c.keyKnownValidators).entries ∅).lookup pk with
    | none => rfl
    | some n =>
      obtain ⟨v, hv, -⟩ := (collectValidators_lookup_iff _ pk n).mp hl
      have hsome : (w2.db.field c.keyKnownValidators pk).isSome := by
        unfold Database.field
        rw [hv]
        rfl
      obtain ⟨q, hq⟩ := hlow pk hsome
      rw [hq] at hch
      exact absurd hup (ToLower_no_upper lib hlib q ch hch)

/-- After the three writes, the first validator is made known under the upper-case text
of its key with the largest index. -/
theorem SetKnownValidator_then_snapshot_witness :
    (SetKnownValidator jsonLib mainnetCache
      (afterCalls jsonLib mainnetCache Redis.empty threeWrites)
      validatorOneUpper 18446744073709551615).1 = none ∧
    ∃ m, (GetKnownValidators mainnetCache
        (SetKnownValidator jsonLib mainnetCache
          (afterCalls jsonLib mainnetCache Redis.empty threeWrites)
          validatorOneUpper 18446744073709551615).2).1 = (some m, none) ∧
      m.lookup (ToLower jsonLib validatorOneUpper) = some 18446744073709551615 ∧
      m.lookup validatorOneUpper = none :=
  have hset : (SetKnownValidator jsonLib mainnetCache
      (afterCalls jsonLib mainnetCache Redis.empty threeWrites)
      validatorOneUpper 18446744073709551615).1 = none := by decide
  match SetKnownValidator_then_snapshot jsonLib Redis.empty "localhost:6379" "mainnet"
      mainnetCache (Redis.empty.sent Command.ping) rfl Redis.empty rfl threeWrites
      validatorOneUpper 18446744073709551615 (by decide) hset _ rfl (by decide) with
  | ⟨m, hm, h1, h2⟩ =>
    ⟨hset, m, hm, h1, h2 ⟨'X', by decide, by decide⟩
      (fun ch hch hup => absurd hch (Nat.not_le.mpr (Nat.lt_of_le_of_lt hup.2 (by decide))))⟩

/-- C6: a lookup of a pubkey whose lower-case form is no field of the payload hash returns
the nil registration and no error, a timestamp lookup of a pubkey whose lower-case form is
no field of the timestamp hash returns 0 and no error (both when the server answers the
`HGET`), and neither lookup changes the stored hashes. -/
theorem lookup_of_absent (lib : Lib) (c : RedisCache) (w : Redis) (p : String) :
    (w.nextFault = none →
      w.db.field c.keyValidatorRegistration (ToLower lib p) = none →
      (GetValidatorRegistration lib c w p).1 = (none, none)) ∧
    (w.nextFault = none →
      w.db.field c.keyValidatorRegistrationTimestamp (ToLower lib p) = none →
      (GetValidatorRegistrationTimestamp lib c w p).1 = (0, none)) ∧
    (GetValidatorRegistration lib c w p).2.db = w.db ∧
    (GetValidatorRegistrationTimestamp lib c w p).2.db = w.db := by
  refine ⟨fun hans hf => ?_, fun hans hf => ?_, GetValidatorRegistration_db lib c w p,
    GetValidatorRegistrationTimestamp_db lib c w p⟩
  · rw [GetValidatorRegistration_absent lib c w p hans hf]
  · rw [GetValidatorRegistrationTimestamp_absent lib c w p hans hf]

/-- The lookups of the second validator in a store that holds only the first one. -/
theorem lookup_of_absent_witness :
    (SetValidatorRegistration jsonLib mainnetCache Redis.empty validatorOne).2.nextFault = none ∧
    (SetValidatorRegistration jsonLib mainnetCache Redis.empty validatorOne).2.db.field
      mainnetCache.keyValidatorRegistration (ToLower jsonLib validatorTwoHex) = none ∧
    (GetValidatorRegistration jsonLib mainnetCache
      (SetValidatorRegistration jsonLib mainnetCache Redis.empty validatorOne).2
      validatorTwoHex).1 = (none, none) ∧
    (GetValidatorRegistrationTimestamp jsonLib mainnetCache
      (SetValidatorRegistration jsonLib mainnetCache Redis.empty validatorOne).2
      validatorTwoHex).1 = (0, none) :=
  have h := lookup_of_absent jsonLib mainnetCache
    (SetValidatorRegistration jsonLib mainnetCache Redis.empty validatorOne).2 validatorTwoHex
  ⟨by decide, by decide, h.1 (by decide) (by decide), h.2.1 (by decide) (by decide)⟩

/-- C7: in a store reached from the empty one by writes through the cache that all
returned no error, a field is in the timestamp hash exactly when it is in the payload
hash; for such a field the payload is the JSON text of one of the written registrations,
kept under its lower-case pubkey, and the stored timestamp is the text of that
registration's `Message.Timestamp`; and, when the written registrations go through JSON
without loss and carry `uint64` timestamps, the two lookups of any pubkey agree: both
report nothing, or the registration returned carries the timestamp returned. -/
theorem registration_maps_paired (lib : Lib) (w0 : Redis) (uri tag : String)
    (c : RedisCache) (w0' : Redis) (hc : NewRedisCache w0 uri tag = ((some c, none), w0'))
    (w : Redis) (hw : w.db = ∅) (calls : List Call) (hok : AllSucceed lib c w calls) :
    (∀ f, ((afterCalls lib c w calls).db.field c.keyValidatorRegistrationTimestamp f).isSome ↔
          ((afterCalls lib c w calls).db.field c.keyValidatorRegistration f).isSome) ∧
    (∀ f t p,
      (afterCalls lib c w calls).db.field c.keyValidatorRegistrationTimestamp f = some t →
      (afterCalls lib c w calls).db.field c.keyValidatorRegistration f = some p →
      ∃ r ∈ entriesOf calls, ToLower lib (PubkeyHex lib r.Message.Pubkey) = f ∧
        lib.marshal r = (p, none) ∧ t = FormatUint r.Message.Timestamp) ∧
    ((∀ r ∈ entriesOf calls, Lossless lib r ∧ r.Message.Timestamp < 2 ^ 64) →
      ∀ (pk : String) (w2 : Redis), w2.db = (afterCalls lib c w calls).db →
        w2.nextFault = none →
        ((GetValidatorRegistration lib c w2 pk).1 = (none, none) ∧
          (GetValidatorRegistrationTimestamp lib c w2 pk).1 = (0, none)) ∨
        ∃ r, (GetValidatorRegistration lib c w2 pk).1 = (some r, none) ∧
          (GetValidatorRegistrationTimestamp lib c w2 pk).1 = (r.Message.Timestamp, none)) := by
  have ht : Tracks lib c (afterCalls lib c w calls).db (entriesOf calls) := by
    have := Tracks_calls hc calls w [] (Tracks_empty lib c w.db hw) hok
    rw [List.nil_append] at this
    exact this
  refine ⟨fun f => ?_, fun f t p hts hp => ?_, fun hall pk w2 hdb hans => ?_⟩
  · rw [(ht.2 f).1, (ht.2 f).2]
    cases latest lib (entriesOf calls) f <;> simp
  · rw [(ht.2 f).1] at hts
    rw [(ht.2 f).2] at hp
    cases hl : latest lib (entriesOf calls) f with
    | none =>
      rw [hl] at hts
      simp at hts
    | some r =>
      rw [hl] at hts hp
      obtain ⟨hmem, hfield⟩ := latest_some lib _ f r hl
      refine ⟨r, hmem, hfield, ?_, (Option.some.inj hts).symm⟩
      have h2 := ht.1 r hmem
      have h1 : (lib.marshal r).1 = p := Option.some.inj hp
      rw [← h1, ← h2]
  · have h1 := (ht.2 (ToLower lib pk)).1
    have h2 := (ht.2 (ToLower lib pk)).2
    rw [← hdb] at h1 h2
    cases hl : latest lib (entriesOf calls) (ToLower lib pk) with
    | none =>
      rw [hl] at h1 h2
      left
      rw [GetValidatorRegistration_absent lib c w2 pk hans h2,
        GetValidatorRegistrationTimestamp_absent lib c w2 pk hans h1]
      exact ⟨rfl, rfl⟩
    | some r =>
      rw [hl] at h1 h2
      obtain ⟨hmem, -⟩ := latest_some lib _ _ r hl
      obtain ⟨⟨bs, hm, hu⟩, hlt⟩ := hall r hmem
      right
      refine ⟨r, ?_, ?_⟩
      · rw [GetValidatorRegistration_present lib c w2 pk _ hans h2]
        simp only [Option.map_some']
        rw [hm, hu]
      · rw [GetValidatorRegistrationTimestamp_present lib c w2 pk _ hans h1,
          Nat.mod_eq_of_lt hlt]

/-- The store after the three writes: the first validator is held with its later
registration in both hashes. -/
theorem registration_maps_paired_witness :
    AllSucceed jsonLib mainnetCache Redis.empty threeWrites ∧
    ((afterCalls jsonLib mainnetCache Redis.empty threeWrites).db.field
      mainnetCache.keyValidatorRegistrationTimestamp
      (ToLower jsonLib validatorOneUpper)).isSome ∧
    ((afterCalls jsonLib mainnetCache Redis.empty threeWrites).db.field
      mainnetCache.keyValidatorRegistration (ToLower jsonLib validatorOneUpper)).isSome :=
  have hok : AllSucceed jsonLib mainnetCache Redis.empty threeWrites :=
    ⟨by decide, by decide, by decide, trivial⟩
  have hts : ((afterCalls jsonLib mainnetCache Redis.empty threeWrites).db.field
      mainnetCache.keyValidatorRegistrationTimestamp
      (ToLower jsonLib validatorOneUpper)).isSome := by decide
  ⟨hok, hts,
    ((registration_maps_paired jsonLib Redis.empty "localhost:6379" "mainnet" mainnetCache
      (Redis.empty.sent Command.ping) rfl Redis.empty rfl threeWrites hok).1 _).mp hts⟩

/-- C8, as the code has it: when `SetValidatorRegistration(entry)` returns an error, the
payload fields of the other pubkeys are as before the call, and the whole payload hash is
as before unless the failing step is the payload write and the server has carried it out
although the client reports it as failed; then the entry's field holds its JSON text. If
the timestamp write is the step that fails, the error is that write's error, nothing is
marshalled or sent after it, the payload hash is as before, and the stored hashes are
unchanged when the server has not carried the write out and differ by that one timestamp
field when it has. If the timestamp write was answered, the timestamp field of the entry's
lower-case pubkey holds the text of `entry.Message.Timestamp`, and the error is the one of
`json.Marshal` (nothing more is sent, no other change) or the one of the payload write
(no other change when the server has not carried it out). -/
theorem SetValidatorRegistration_failure (lib : Lib) (w0 : Redis) (uri tag : String)
    (c : RedisCache) (w0' : Redis) (hc : NewRedisCache w0 uri tag = ((some c, none), w0'))
    (w w' : Redis) (entry : SignedValidatorRegistration) (err : Error)
    (h : SetValidatorRegistration lib c w entry = (some err, w')) :
    (∀ f, f ≠ ToLower lib (PubkeyHex lib entry.Message.Pubkey) →
      w'.db.field c.keyValidatorRegistration f = w.db.field c.keyValidatorRegistration f) ∧
    (¬ PayloadWriteLost lib c w entry →
      w'.db.hash c.keyValidatorRegistration = w.db.hash c.keyValidatorRegistration) ∧
    (PayloadWriteLost lib c w entry →
      w'.db.field c.keyValidatorRegistration
        (ToLower lib (PubkeyHex lib entry.Message.Pubkey)) = some (lib.marshal entry).1) ∧
    (∀ fault, w.nextFault = some fault →
      err = Error.store fault.msg ∧
      w' = afterFailedWrite w c.keyValidatorRegistrationTimestamp
        (ToLower lib (PubkeyHex lib entry.Message.Pubkey))
        (FormatUint entry.Message.Timestamp) fault ∧
      w'.log = w.log ++ [Command.hset c.keyValidatorRegistrationTimestamp
        (ToLower lib (PubkeyHex lib entry.Message.Pubkey))
        (FormatUint entry.Message.Timestamp)] ∧
      w'.db.hash c.keyValidatorRegistration = w.db.hash c.keyValidatorRegistration ∧
      (fault.applied = false → w'.db = w.db) ∧
      (fault.applied = true →
        w'.db = w.db.hset c.keyValidatorRegistrationTimestamp
          (ToLower lib (PubkeyHex lib entry.Message.Pubkey))
          (FormatUint entry.Message.Timestamp))) ∧
    (w.nextFault = none →
      w'.db.field c.keyValidatorRegistrationTimestamp
        (ToLower lib (PubkeyHex lib entry.Message.Pubkey)) =
          some (FormatUint entry.Message.Timestamp) ∧
      (((lib.marshal entry).2 = some err ∧ w' = afterTimestampWrite lib c w entry) ∨
       ((lib.marshal entry).2 = none ∧
        ∃ fault, (afterTimestampWrite lib c w entry).nextFault = some fault ∧
          err = Error.store fault.msg ∧
          w' = afterFailedWrite (afterTimestampWrite lib c w entry)
            c.keyValidatorRegistration
            (ToLower lib (PubkeyHex lib entry.Message.Pubkey)) (lib.marshal entry).1 fault ∧
          (fault.applied = false → w'.db = (afterTimestampWrite lib c w entry).db)))) := by
  obtain ⟨hne, -, -⟩ := keys_distinct hc
  refine ⟨fun f hf => SetValidatorRegistration_error_payload_other hne h f hf,
    fun hlost => SetValidatorRegistration_error_payload hne h hlost,
    fun hlost => SetValidatorRegistration_error_payload_lost h hlost, ?_, ?_⟩
  · intro fault h1
    rcases SetValidatorRegistration_error_cases h with
      ⟨fault', h1', he, hw⟩ | ⟨h1', -, -⟩ | ⟨h1', -, -⟩
    · rw [h1] at h1'
      have hfe : fault = fault' := Option.some.inj h1'
      subst hfe
      refine ⟨he, hw, ?_, ?_, ?_, ?_⟩
      · rw [hw]
        exact afterFailedWrite_log _ _ _ _ _
      · rw [hw]
        exact afterFailedWrite_hash_of_ne _ _ _ _ _ _ hne
      · intro ha
        rw [hw, afterFailedWrite_db, ha]
        rfl
      · intro ha
        rw [hw, afterFailedWrite_db, ha]
        rfl
    · rw [h1] at h1'
      simp at h1'
    · rw [h1] at h1'
      simp at h1'
  · intro h1
    have hts : (afterTimestampWrite lib c w entry).db.field c.keyValidatorRegistrationTimestamp
        (registrationField lib entry) = some (FormatUint entry.Message.Timestamp) :=
      field_hset_self _ _ _ _
    rcases SetValidatorRegistration_error_cases h with
      ⟨fault, h1', -, -⟩ | ⟨-, hm, hw⟩ | ⟨-, hm, fault, h2, he, hw⟩
    · rw [h1] at h1'
      simp at h1'
    · refine ⟨?_, Or.inl ⟨hm, hw⟩⟩
      rw [hw]
      exact hts
    · refine ⟨?_, Or.inr ⟨hm, fault, h2, he, hw, ?_⟩⟩
      · rw [hw]
        unfold Database.field
        rw [afterFailedWrite_hash_of_ne _ _ _ _ _ _ (Ne.symm hne)]
        exact hts
      · intro ha
        rw [hw, afterFailedWrite_db, ha]
        rfl

/-- The first validator is stored; its later registration then fails at the payload
write, which the server has not carried out: the timestamp field has moved on, the
payload has not. -/
theorem SetValidatorRegistration_failure_witness :
    SetValidatorRegistration jsonLib mainnetCache storeBeforeOutage validatorOneLater =
      (some (Error.store "i/o timeout"),
        (SetValidatorRegistration jsonLib mainnetCache storeBeforeOutage validatorOneLater).2) ∧
    ¬ PayloadWriteLost jsonLib mainnetCache storeBeforeOutage validatorOneLater ∧
    (SetValidatorRegistration jsonLib mainnetCache storeBeforeOutage validatorOneLater).2.db.hash
        mainnetCache.keyValidatorRegistration =
      storeBeforeOutage.db.hash mainnetCache.keyValidatorRegistration ∧
    (SetValidatorRegistration jsonLib mainnetCache storeBeforeOutage validatorOneLater).2.db.field
        mainnetCache.keyValidatorRegistrationTimestamp
        (ToLower jsonLib (PubkeyHex jsonLib validatorOneLater.Message.Pubkey)) =
      some "1670000000" :=
  have hrun : SetValidatorRegistration jsonLib mainnetCache storeBeforeOutage
      validatorOneLater =
      (some (Error.store "i/o timeout"),
        (SetValidatorRegistration jsonLib mainnetCache storeBeforeOutage validatorOneLater).2) :=
    rfl
  have hkept : ¬ PayloadWriteLost jsonLib mainnetCache storeBeforeOutage validatorOneLater :=
    fun hlost =>
      match hlost with
      | ⟨_, _, fault, hf, ha⟩ =>
        have hfe : fault = { msg := "i/o timeout", applied := false } :=
          (Option.some.inj hf).symm
        absurd (hfe ▸ ha) (by decide)
  have h := SetValidatorRegistration_failure jsonLib Redis.empty "localhost:6379" "mainnet"
    mainnetCache (Redis.empty.sent Command.ping) rfl _ _ validatorOneLater _ hrun
  ⟨hrun, hkept, h.2.1 hkept, (h.2.2.2.2 (by decide)).1⟩

/-- The claim C8 as it is worded fails on a reply that is lost. The later registration of
the first validator returns an error at the payload write and the payload hash has
changed; and it returns an error at the timestamp write and the stored hashes have
changed. -/
theorem SetValidatorRegistration_failure_counterexample :
    ((SetValidatorRegistration jsonLib mainnetCache storeBeforeLostReply validatorOneLater).1 =
        some (Error.store "i/o timeout") ∧
      (SetValidatorRegistration jsonLib mainnetCache storeBeforeLostReply
          validatorOneLater).2.db.hash mainnetCache.keyValidatorRegistration ≠
        storeBeforeLostReply.db.hash mainnetCache.keyValidatorRegistration) ∧
    (storeAtLostReply.nextFault = some { msg := "i/o timeout", applied := true } ∧
      (SetValidatorRegistration jsonLib mainnetCache storeAtLostReply validatorOneLater).1 =
        some (Error.store "i/o timeout") ∧
      (SetValidatorRegistration jsonLib mainnetCache storeAtLostReply validatorOneLater).2.db ≠
        storeAtLostReply.db) :=
  ⟨⟨by decide, fun heq =>
      absurd (congrArg (fun hash : Hash =>
        hash.lookup (ToLower jsonLib (PubkeyHex jsonLib validatorOne.Message.Pubkey))) heq)
        (by decide)⟩,
    by decide, by decide, fun heq =>
      absurd (congrArg (fun db : Database =>
        db.field mainnetCache.keyValidatorRegistrationTimestamp
          (ToLower jsonLib (PubkeyHex jsonLib validatorOne.Message.Pubkey))) heq)
        (by decide)⟩

/-- C9: a cache that `NewRedisCache` has built for the tag `t` has the three keys
`boost-relay/t:known-validators`, `boost-relay/t:validators-registration-timestamp` (the
payloads) and `boost-relay/t:validators-registration` (the timestamps), and a second cache
built for the same tag, on whatever connection and address, has the same three keys. -/
theorem NewRedisCache_keys (w1 w2 : Redis) (u1 u2 t : String) (c1 c2 : RedisCache)
    (w1' w2' : Redis)
    (h1 : NewRedisCache w1 u1 t = ((some c1, none), w1'))
    (h2 : NewRedisCache w2 u2 t = ((some c2, none), w2')) :
    c1.keyKnownValidators = "boost-relay/" ++ t ++ ":known-validators" ∧
    c1.keyValidatorRegistration = "boost-relay/" ++ t ++ ":validators-registration-timestamp" ∧
    c1.keyValidatorRegistrationTimestamp = "boost-relay/" ++ t ++ ":validators-registration" ∧
    c2.keyKnownValidators = c1.keyKnownValidators ∧
    c2.keyValidatorRegistration = c1.keyValidatorRegistration ∧
    c2.keyValidatorRegistrationTimestamp = c1.keyValidatorRegistrationTimestamp := by
  obtain ⟨a1, b1, d1⟩ := NewRedisCache_ok h1
  obtain ⟨a2, b2, d2⟩ := NewRedisCache_ok h2
  exact ⟨a1, b1, d1, a2.trans a1.symm, b2.trans b1.symm, d2.trans d1.symm⟩

/-- The cache for the tag `mainnet`, built on a fresh connection and on one that has
already been used. -/
theorem NewRedisCache_keys_witness :
    NewRedisCache Redis.empty "localhost:6379" "mainnet" =
      ((some mainnetCache, none), Redis.empty.sent Command.ping) ∧
    NewRedisCache usedConnection "redis:6379" "mainnet" =
      ((some { mainnetCache with client := some "redis:6379" }, none),
        usedConnection.sent Command.ping) ∧
    mainnetCache.keyKnownValidators = "boost-relay/" ++ "mainnet" ++ ":known-validators" ∧
    mainnetCache.keyValidatorRegistration =
      "boost-relay/" ++ "mainnet" ++ ":validators-registration-timestamp" ∧
    mainnetCache.keyValidatorRegistrationTimestamp =
      "boost-relay/" ++ "mainnet" ++ ":validators-registration" :=
  have h1 : NewRedisCache Redis.empty "localhost:6379" "mainnet" =
      ((some mainnetCache, none), Redis.empty.sent Command.ping) := rfl
  have h2 : NewRedisCache usedConnection "redis:6379" "mainnet" =
      ((some { mainnetCache with client := some "redis:6379" }, none),
        usedConnection.sent Command.ping) := rfl
  have h := NewRedisCache_keys _ _ _ _ _ _ _ _ _ h1 h2
  ⟨h1, h2, h.1, h.2.1, h.2.2.1⟩

/-- C10: the keys are free of collisions. For caches built for the tags `t1` and `t2`
and hashes `m1` and `m2`, equal keys force `t1 = t2` and `m1 = m2`; the three keys of one
cache are pairwise different; and an `HSET` on the key of `(t1, m1)` leaves the hash at
the key of any other `(t2, m2)` as it was. -/
theorem key_namespace_injective (w1 w2 : Redis) (u1 u2 t1 t2 : String) (c1 c2 : RedisCache)
    (w1' w2' : Redis)
    (h1 : NewRedisCache w1 u1 t1 = ((some c1, none), w1'))
    (h2 : NewRedisCache w2 u2 t2 = ((some c2, none), w2'))
    (m1 m2 : LogicalMap) :
    (c1.key m1 = c2.key m2 → t1 = t2 ∧ m1 = m2) ∧
    (m1 ≠ m2 → c1.key m1 ≠ c1.key m2) ∧
    (¬ (t1 = t2 ∧ m1 = m2) → ∀ (w : Redis) (f v : String),
      (HSet w (c1.key m1) f v).2.db.hash (c2.key m2) = w.db.hash (c2.key m2)) := by
  refine ⟨key_injective h1 h2 m1 m2, fun hm h => hm (key_injective h1 h1 m1 m2 h).2, ?_⟩
  intro hne w f v
  have hk : c2.key m2 ≠ c1.key m1 := fun h => hne (key_injective h1 h2 m1 m2 h.symm)
  exact HSet_hash_of_ne w _ _ f v hk

/-- The tags `a` and `a:validators-registration`, whose keys share a long part. -/
theorem key_namespace_injective_witness :
    NewRedisCache Redis.empty "localhost:6379" "a" = ((some nestedCacheA, none),
      Redis.empty.sent Command.ping) ∧
    NewRedisCache Redis.empty "localhost:6379" "a:validators-registration" =
      ((some nestedCacheB, none), Redis.empty.sent Command.ping) ∧
    nestedCacheA.key LogicalMap.registration ≠
      nestedCacheB.key LogicalMap.registrationTimestamp ∧
    (HSet Redis.empty (nestedCacheA.key LogicalMap.registration) "0xab" "1").2.db.hash
        (nestedCacheB.key LogicalMap.registrationTimestamp) =
      Redis.empty.db.hash (nestedCacheB.key LogicalMap.registrationTimestamp) :=
  have h1 : NewRedisCache Redis.empty "localhost:6379" "a" = ((some nestedCacheA, none),
      Redis.empty.sent Command.ping) := rfl
  have h2 : NewRedisCache Redis.empty "localhost:6379" "a:validators-registration" =
      ((some nestedCacheB, none), Redis.empty.sent Command.ping) := rfl
  have hne : ¬ ("a" = "a:validators-registration" ∧
      LogicalMap.registration = LogicalMap.registrationTimestamp) := by decide
  have h := key_namespace_injective _ _ _ _ _ _ _ _ _ _ h1 h2 LogicalMap.registration
    LogicalMap.registrationTimestamp
  ⟨h1, h2, fun he => hne (h.1 he), h.2.2 hne Redis.empty "0xab" "1"⟩

end Datastore
